import Mathlib

set_option maxRecDepth 4000

/-!
Shallow embedding of the discovery-and-extraction pipeline implemented in
`src/app/api/collect/route.ts` (Next.js route).  Pure functions of the source
(URL/keyword scoring, price normalization, title resolution, search-form
probing logic, crawl loop, search-result post-processing, oracle merge) are
translated into executable Lean definitions.  Browser and network effects are
modelled as explicit environment functions (page worlds, URL resolvers,
navigation oracles); JavaScript strings are modelled as Lean strings with
ASCII-only case folding, JavaScript numbers arising from digit strings as
naturals.
-/

/-- JavaScript whitespace as used by the source's regexes, restricted to the
common ASCII whitespace characters. -/
def isJsWs (c : Char) : Bool :=
  c = ' ' || c = '\t' || c = '\n' || c = '\r'

/-- ASCII lower-casing of one character, the effect of
JavaScript toLowerCase on the ASCII range. -/
def lowerChar (c : Char) : Char :=
  if 65 ≤ c.toNat ∧ c.toNat ≤ 90 then Char.ofNat (c.toNat + 32) else c

/-- Model of JavaScript s.toLowerCase(). -/
def jsToLower (s : String) : String :=
  String.mk (s.toList.map lowerChar)

/-- Model of JavaScript s.trim(). -/
def jsTrim (s : String) : String :=
  String.mk (((s.toList.dropWhile isJsWs).reverse.dropWhile isJsWs).reverse)

/-- Auxiliary for collapsing whitespace runs; the flag records whether the
previous character was whitespace. -/
def compressWsAux : Bool → List Char → List Char
  | _, [] => []
  | prevWs, c :: cs =>
    if isJsWs c then
      if prevWs then compressWsAux true cs else ' ' :: compressWsAux true cs
    else c :: compressWsAux false cs

/-- Model of JavaScript s.replace of a whitespace-run regex by one space. -/
def jsCompressWs (s : String) : String :=
  String.mk (compressWsAux false s.toList)

/-- Model of JavaScript s.replace of a whitespace-run regex by the empty
string: delete all whitespace. -/
def stripWs (s : String) : String :=
  String.mk (s.toList.filter (fun c => !isJsWs c))

/-- JavaScript string length counts UTF-16 code units: characters beyond the
basic multilingual plane count twice. -/
def jsLength (s : String) : Nat :=
  s.toList.foldl (fun n c => n + (if c.toNat < 65536 then 1 else 2)) 0

/-- Does the needle occur at the head of the haystack? -/
def segAt : List Char → List Char → Bool
  | [], _ => true
  | _ :: _, [] => false
  | a :: as, b :: bs => a = b && segAt as bs

/-- Does the needle occur anywhere in the haystack? -/
def hasSeg (needle : List Char) : List Char → Bool
  | [] => segAt needle []
  | c :: cs => segAt needle (c :: cs) || hasSeg needle cs

/-- Model of JavaScript hay.includes(needle). -/
def substrOf (needle hay : String) : Bool :=
  hasSeg needle.toList hay.toList

/-- Model of JavaScript s.slice(0, n). -/
def jsSlice (s : String) (n : Nat) : String :=
  String.mk (s.toList.take n)

/-- Split a character list at every whitespace character, keeping empty
pieces; the accumulator holds the current piece reversed. -/
def splitAtWsAux : List Char → List Char → List (List Char)
  | acc, [] => [acc.reverse]
  | acc, c :: cs =>
    if isJsWs c then acc.reverse :: splitAtWsAux [] cs
    else splitAtWsAux (c :: acc) cs

/-- Decimal digit character for a digit value below ten. -/
def digitChar : Nat → Char
  | 0 => '0'
  | 1 => '1'
  | 2 => '2'
  | 3 => '3'
  | 4 => '4'
  | 5 => '5'
  | 6 => '6'
  | 7 => '7'
  | 8 => '8'
  | 9 => '9'
  | _ => '*'

/-- Fuelled most-significant-first decimal digit expansion. -/
def natDigitsF : Nat → Nat → List Char
  | 0, _ => []
  | fuel + 1, n =>
    if n < 10 then [digitChar n]
    else natDigitsF fuel (n / 10) ++ [digitChar (n % 10)]

/-- Model of JavaScript String(n) for a non-negative integer value. -/
def natToString (n : Nat) : String :=
  String.mk (natDigitsF (n + 1) n)

/-- Numeric value of a decimal digit string, the model of JavaScript
Number on a digits-only string. -/
def digitsToNat (l : List Char) : Nat :=
  l.foldl (fun a c => a * 10 + (c.toNat - 48)) 0

/-- Insert thousands separators into a reversed digit list. -/
def groupRevF : Nat → List Char → List Char
  | 0, l => l
  | fuel + 1, a :: b :: c :: d :: rest => a :: b :: c :: ',' :: groupRevF fuel (d :: rest)
  | _ + 1, l => l

/-- Model of JavaScript n.toLocaleString for the ko-KR locale on a
non-negative integer: decimal digits grouped in threes by commas. -/
def groupThousands (n : Nat) : String :=
  String.mk ((groupRevF n ((natDigitsF (n + 1) n).reverse)).reverse)

/-- Maximum of a list of naturals, zero on the empty list; models a spread
Math.max call on a non-empty list. -/
def maxList : List Nat → Nat
  | [] => 0
  | x :: xs => xs.foldl max x

/-- First-occurrence deduplication with an explicit seen set; models
iteration order of a JavaScript Set built by insertion. -/
def dedupGo : List String → List String → List String
  | [], _ => []
  | x :: xs, seen =>
    if seen.contains x then dedupGo xs seen else x :: dedupGo xs (x :: seen)

/-- Model of Array.from applied to a Set built from a list. -/
def dedupFirst (l : List String) : List String :=
  dedupGo l []

/-- Descending insertion by a numeric key, stable for equal keys; models the
stable sort of a JavaScript score comparator. -/
def insertByKeyDesc {α : Type} (key : α → Nat) (x : α) : List α → List α
  | [] => [x]
  | y :: ys => if key y < key x then x :: y :: ys else y :: insertByKeyDesc key x ys

/-- Stable descending sort by a numeric key. -/
def sortByKeyDesc {α : Type} (key : α → Nat) : List α → List α
  | [] => []
  | x :: xs => insertByKeyDesc key x (sortByKeyDesc key xs)

/-- Path and query markers scored by scoreProductUrl in the source. -/
def productUrlKeywords : List String :=
  ["/product", "/products", "/item", "/goods", "/detail", "/category",
   "/categories", "/shop", "/store", "/mall", "product_id=", "goods_id=",
   "item_id=", "cate_no=", "category=", "category_no=", "goodsno="]

/-- Embedding of scoreProductUrl: one point per marker contained in the
lower-cased URL. -/
def scoreProductUrl (url : String) : Nat :=
  let lower := jsToLower url
  productUrlKeywords.foldl (fun score key => if substrOf key lower then score + 1 else score) 0

/-- Whitespace-split, trimmed, non-empty tokens of the lower-cased keyword,
as built inside scoreKeywordMatch and scoreKeywordText. -/
def keywordTokens (keyword : String) : List String :=
  ((splitAtWsAux [] (jsToLower keyword).toList).map (fun l => jsTrim (String.mk l))).filter
    (fun t => t ≠ "")

/-- Embedding of scoreKeywordMatch from the source. -/
def scoreKeywordMatch (url keyword : String) : Nat :=
  let normalized := stripWs (jsToLower keyword)
  if normalized = "" then 0
  else
    let urlLower := jsToLower url
    if substrOf normalized urlLower then 3
    else
      (keywordTokens keyword).foldl
        (fun score token =>
          if jsLength token < 2 then score
          else if substrOf token urlLower then score + 1 else score) 0

/-- Embedding of scoreKeywordText from the source. -/
def scoreKeywordText (text keyword : String) : Nat :=
  let normalized := stripWs (jsToLower keyword)
  if normalized = "" then 0
  else
    let textLower := jsToLower text
    if substrOf normalized textLower then 4
    else
      (keywordTokens keyword).foldl
        (fun score token =>
          if jsLength token < 2 then score
          else if substrOf token textLower then score + 1 else score) 0

/-- Specification-side count: number of keyword tokens of length at least two
occurring in the haystack (duplicated tokens counted per occurrence in the
token list). -/
def tokenMatchCount (hay keyword : String) : Nat :=
  ((keywordTokens keyword).filter (fun t => 2 ≤ jsLength t && substrOf t hay)).length

/-- Greedy parse of one or more comma-plus-three-digit groups, the
quantified group of the price regex inside normalizePrice; returns the
consumed characters and the remainder. -/
def commaGroups : List Char → Option (List Char × List Char)
  | c :: d1 :: d2 :: d3 :: rest =>
    if c = ',' ∧ d1.isDigit ∧ d2.isDigit ∧ d3.isDigit then
      match commaGroups rest with
      | some (g, r) => some (c :: d1 :: d2 :: d3 :: g, r)
      | none => some ([c, d1, d2, d3], rest)
    else none
  | _ => none

/-- One alternative of the grouped-thousands pattern: exactly k leading
digits followed by at least one comma group. -/
def tryGroupedK (k : Nat) (l : List Char) : Option (List Char × List Char) :=
  let ds := l.take k
  if ds.length = k ∧ ds.all Char.isDigit then
    match commaGroups (l.drop k) with
    | some (g, r) => some (ds ++ g, r)
    | none => none
  else none

/-- Greedy match of the grouped-thousands alternative (one to three leading
digits, preferring more, then comma groups) at the current position. -/
def tryGrouped (l : List Char) : Option (List Char × List Char) :=
  match tryGroupedK 3 l with
  | some r => some r
  | none =>
    match tryGroupedK 2 l with
    | some r => some r
    | none => tryGroupedK 1 l

/-- Greedy match of the bare-digits alternative at the current position. -/
def tryPlain (l : List Char) : Option (List Char × List Char) :=
  let ds := l.takeWhile Char.isDigit
  if ds = [] then none else some (ds, l.dropWhile Char.isDigit)

/-- Fuelled global scan of the price-number regex: at each position try the
grouped alternative then the bare-digits alternative, collect the match and
resume after it, otherwise advance one character. -/
def scanMatchesF : Nat → List Char → List (List Char)
  | 0, _ => []
  | _, [] => []
  | fuel + 1, c :: cs =>
    match tryGrouped (c :: cs) with
    | some (m, rest) => m :: scanMatchesF fuel rest
    | none =>
      match tryPlain (c :: cs) with
      | some (m, rest) => m :: scanMatchesF fuel rest
      | none => scanMatchesF fuel cs

/-- All matches of the price-number regex in left-to-right scan order. -/
def scanMatches (l : List Char) : List (List Char) :=
  scanMatchesF l.length l

/-- Fuelled floor base-two logarithm. -/
def log2F : Nat → Nat → Nat
  | 0, _ => 0
  | fuel + 1, n => if n ≤ 1 then 0 else log2F fuel (n / 2) + 1

/-- Floor base-two logarithm, fuelled by the argument itself. -/
def natLog2 (n : Nat) : Nat := log2F n n

/-- Spacing of the IEEE-754 binary64 grid at a magnitude: the power of two
separating adjacent representable integers there. -/
def roundScale (n : Nat) : Nat := 2 ^ (natLog2 n - 52)

/-- Rounded 53-bit significand of a large integer: round to nearest, ties to
even. -/
def roundQ (n : Nat) : Nat :=
  if roundScale n < 2 * (n % roundScale n) ∨
      (2 * (n % roundScale n) = roundScale n ∧ (n / roundScale n) % 2 = 1) then
    n / roundScale n + 1
  else n / roundScale n

/-- Round a non-negative integer to the value of the nearest IEEE-754
binary64 number (round half to even), the effect of JavaScript Number on an
exact decimal integer; none models overflow to Infinity, which the source's
Number.isFinite filter rejects. -/
def roundDouble (n : Nat) : Option Nat :=
  if n < 2 ^ 53 then some n
  else if roundQ n * roundScale n < 2 ^ 1024 then some (roundQ n * roundScale n) else none

/-- Number of decimal digits of a natural number. -/
def digitCount (n : Nat) : Nat := (natDigitsF (n + 1) n).length

/-- One digit-count step of the ToString significand search: of the two
nearest multiples of the given power of ten, keep the ones that round back
to the double value, preferring the closer and on a tie the even one, as
the ECMAScript ToString algorithm demands. -/
def pickCand (v a e : Nat) : Option Nat :=
  if roundDouble (a * 10 ^ e) = some v then
    if roundDouble ((a + 1) * 10 ^ e) = some v then
      some (if v - a * 10 ^ e < (a + 1) * 10 ^ e - v then a
            else if (a + 1) * 10 ^ e - v < v - a * 10 ^ e then a + 1
            else if a % 2 = 0 then a else a + 1)
    else some a
  else if roundDouble ((a + 1) * 10 ^ e) = some v then some (a + 1)
  else none

/-- Search for the shortest decimal significand of a double value, trying
digit counts from one upward. -/
def searchReprGo (v d : Nat) : Nat → Nat → Option (Nat × Nat)
  | _, 0 => none
  | k, fuel + 1 =>
    match pickCand v (v / 10 ^ (d - k)) (d - k) with
    | some s => some (s, d - k)
    | none => searchReprGo v d (k + 1) fuel

/-- Shortest decimal representation, a significand and a power of ten, of a
double value. -/
def searchRepr (v : Nat) : Option (Nat × Nat) :=
  searchReprGo v (digitCount v) 1 (digitCount v)

/-- Move trailing zeros of the significand into the exponent. -/
def normReprGo : Nat → Nat → Nat → Nat × Nat
  | 0, s, e => (s, e)
  | fuel + 1, s, e => if s % 10 = 0 ∧ s ≠ 0 then normReprGo fuel (s / 10) (e + 1) else (s, e)

/-- Normalized shortest representation. -/
def normRepr (s e : Nat) : Nat × Nat := normReprGo s s e

/-- Model of JavaScript String on a finite non-negative integral double
value, following the ECMAScript ToString algorithm: the shortest decimal
significand that rounds back to the value, rendered positionally (digits
padded with zeros) below ten to the twenty-first power and in exponential
notation from there up.  The search cannot fail on an actual double value;
the fallback keeps the function total. -/
def jsDoubleToString (v : Nat) : String :=
  if v = 0 then "0"
  else
    match searchRepr v with
    | none => natToString v
    | some p =>
      let s := (normRepr p.1 p.2).1
      let e := (normRepr p.1 p.2).2
      let n := digitCount s + e
      if n ≤ 21 then String.mk (natDigitsF (s + 1) s ++ List.replicate e '0')
      else
        String.mk
          ((match natDigitsF (s + 1) s with
            | [] => []
            | c :: rest => if rest = [] then [c] else c :: '.' :: rest) ++
            'e' :: '+' :: natDigitsF n (n - 1))

/-- The parsed price values of normalizePrice: every regex match with the
commas stripped, converted by JavaScript Number (double rounding) and
filtered to finite values, as the map and Number.isFinite filter of the
source do. -/
def priceNums (value : String) : List Nat :=
  (scanMatches value.toList).filterMap
    (fun m => roundDouble (digitsToNat (m.filter (fun c => c ≠ ','))))

/-- Best-value selection of normalizePrice: the maximum of the values of at
least one thousand when any exist, else the maximum of all values. -/
def bestPrice (nums : List Nat) : Nat :=
  let filtered := nums.filter (fun n => 1000 ≤ n)
  if filtered ≠ [] then maxList filtered else maxList nums

/-- Embedding of normalizePrice from the page-evaluate block of
fetchProductSignals: collect all grouped or bare number substrings, strip
commas, convert with JavaScript Number (IEEE-754 double rounding, keeping
only finite values), prefer the maximum value of at least one thousand,
else the maximum overall, and render the winner with JavaScript String,
which switches to exponential notation at ten to the twenty-first power. -/
def normalizePrice (value : String) : String :=
  if value = "" then ""
  else
    let nums := priceNums value
    if nums = [] then "" else jsDoubleToString (bestPrice nums)

/-- Embedding of detectCurrency: fixed priority chain of currency markers. -/
def detectCurrency (value : String) : String :=
  if value.toList.any (fun c => c = '₩' ∨ c = '원') then "KRW"
  else if value.toList.any (fun c => c = '$') || substrOf "usd" (jsToLower value) then "USD"
  else if value.toList.any (fun c => c = '€') || substrOf "eur" (jsToLower value) then "EUR"
  else if value.toList.any (fun c => c = '£') || substrOf "gbp" (jsToLower value) then "GBP"
  else ""

/-- Character class of the currency-price regex body: digits, comma, dot. -/
def isPriceBodyChar (c : Char) : Bool :=
  c.isDigit || c = ',' || c = '.'

/-- Case-insensitive three-letter currency word at the head of the list. -/
def currencyWordAt : List Char → Option (List Char)
  | a :: b :: c :: _ =>
    let w := String.mk [lowerChar a, lowerChar b, lowerChar c]
    if w = "usd" ∨ w = "eur" ∨ w = "gbp" then some [a, b, c] else none
  | _ => none

/-- Match of the currency-qualified price regex at the current position:
either a currency symbol, optional single whitespace, then digits and price
body characters; or digits and price body characters, optional single
whitespace, then a currency word. -/
def currencyAt (l : List Char) : Option (List Char) :=
  match l with
  | [] => none
  | c :: rest =>
    if c = '$' ∨ c = '€' ∨ c = '£' then
      match rest with
      | [] => none
      | w :: r2 =>
        if isJsWs w then
          match r2 with
          | d :: r3 =>
            if d.isDigit then some (c :: w :: d :: r3.takeWhile isPriceBodyChar) else none
          | [] => none
        else if w.isDigit then some (c :: w :: r2.takeWhile isPriceBodyChar)
        else none
    else if c.isDigit then
      let body := rest.takeWhile isPriceBodyChar
      let r2 := rest.dropWhile isPriceBodyChar
      match r2 with
      | [] => none
      | w :: r3 =>
        if isJsWs w then
          match currencyWordAt r3 with
          | some word => some (c :: body ++ w :: word)
          | none => none
        else
          match currencyWordAt r2 with
          | some word => some (c :: body ++ word)
          | none => none
    else none

/-- First match of the currency-qualified price regex anywhere in the list. -/
def findCurrency : List Char → Option (List Char)
  | [] => none
  | c :: cs =>
    match currencyAt (c :: cs) with
    | some m => some m
    | none => findCurrency cs

/-- Embedding of extractCurrencyPrice: first currency-qualified price
substring of the given lines, trimmed, empty when absent. -/
def extractCurrencyPrice (lines : String) : String :=
  if lines = "" then ""
  else
    match findCurrency lines.toList with
    | some m => jsTrim (String.mk m)
    | none => ""

/-- Match of the grouped-won price regex at the current position: a
grouped-thousands number, optional whitespace, then the won character. -/
def wonPriceAt (l : List Char) : Bool :=
  match tryGrouped l with
  | some (_, rest) =>
    match rest.dropWhile isJsWs with
    | w :: _ => w = '원'
    | [] => false
  | none => false

/-- Test of the grouped-won price regex anywhere in the list. -/
def hasWonPrice : List Char → Bool
  | [] => false
  | c :: cs => wonPriceAt (c :: cs) || hasWonPrice cs

/-- Embedding of parsePriceNumber: strip non-digits, parse, keep only
positive finite values. -/
def parsePriceNumber (value : String) : Option Nat :=
  if value = "" then none
  else
    let num := digitsToNat (value.toList.filter Char.isDigit)
    if 0 < num then some num else none

/-- Embedding of isPriceAnomalous: true when both prices parse and the sale
price exceeds the list price. -/
def isPriceAnomalous (listPrice salePrice : String) : Bool :=
  match parsePriceNumber listPrice, parsePriceNumber salePrice with
  | some listNum, some saleNum => listNum < saleNum
  | _, _ => false

/-- Embedding of the formatPrice closure of fetchProductSignals: strip
non-digits, and for a positive value render grouped thousands with the won
suffix. -/
def formatPrice (value : String) : String :=
  if value = "" then ""
  else
    let num := digitsToNat (value.toList.filter Char.isDigit)
    if 0 < num then groupThousands num ++ "원" else ""

/-- The ProductSignals record of the source. -/
structure ProductSignals where
  url : String
  text : String
  priceBlockText : String
  titleBlockText : String
  priceLines : String
  currencyHint : String
  imageSrc : String
  productName : String
  listPrice : String
  salePrice : String
  score : Nat
deriving Repr, DecidableEq

/-- Result of the in-page evaluate block of fetchProductSignals, the pure
snapshot handed back from the browser on success. -/
structure EvalResult where
  title : String
  listPrice : String
  salePrice : String
  priceBlockText : String
  text : String
  titleBlockText : String
  imageSrc : String
  priceLines : String
  currencyHint : String
  rawListPrice : String
  rawSalePrice : String
deriving Repr, DecidableEq

/-- Embedding of fetchProductSignals: the browser interaction is modelled by
an optional evaluate result, none meaning any navigation or evaluation step
threw; the catch branch then yields the all-empty record carrying the input
URL, and the success branch assembles the record exactly as the source
does. -/
def fetchProductSignals (url : String) (result : Option EvalResult) : ProductSignals :=
  match result with
  | none =>
    { url := url, text := "", priceBlockText := "", titleBlockText := "",
      priceLines := "", currencyHint := "", imageSrc := "", productName := "",
      listPrice := "", salePrice := "", score := 0 }
  | some r =>
    let text := jsSlice (jsTrim (jsCompressWs r.text)) 2000
    { url := url,
      text := text,
      priceBlockText := r.priceBlockText,
      titleBlockText := r.titleBlockText,
      priceLines := r.priceLines,
      currencyHint := r.currencyHint,
      imageSrc := jsTrim r.imageSrc,
      productName := r.title,
      listPrice :=
        if r.currencyHint ≠ "" ∧ r.currencyHint ≠ "KRW" then
          (if extractCurrencyPrice r.priceLines ≠ "" then extractCurrencyPrice r.priceLines
           else jsTrim r.rawListPrice)
        else formatPrice r.listPrice,
      salePrice :=
        if r.currencyHint ≠ "" ∧ r.currencyHint ≠ "KRW" then
          (if extractCurrencyPrice r.priceLines ≠ "" then extractCurrencyPrice r.priceLines
           else jsTrim r.rawSalePrice)
        else formatPrice r.salePrice,
      score := 0 }

/-- Embedding of the normalizeName closure of the evaluate block: collapse
whitespace runs and trim. -/
def normalizeName (value : String) : String :=
  jsTrim (jsCompressWs value)

/-- The denylist phrases of the isInvalidName regex, lower-cased. -/
def denyPhrases : List String :=
  ["배송", "공지", "로그인", "장바구니", "품절", "sold out", "world shipping"]

/-- Embedding of the isInvalidName closure: reject empty, short, purely
numeric, or denylisted titles after whitespace normalization. -/
def isInvalidName (value : String) : Bool :=
  let v := normalizeName value
  if v = "" then true
  else if jsLength v ≤ 3 then true
  else if v.toList.all Char.isDigit then true
  else if denyPhrases.any (fun p => substrOf p (jsToLower v)) then true
  else false

/-- Embedding of the title-candidate resolution of the evaluate block: the
candidates are the selector texts in source order, each normalized, and the
first non-rejected one wins, defaulting to the empty string. -/
def resolveTitle (candidates : List String) : String :=
  match (candidates.map normalizeName).find? (fun v => !isInvalidName v) with
  | some t => t
  | none => ""

/-- The page cap MAX_CRAWL_PAGES of the source. -/
def MAX_CRAWL_PAGES : Nat := 5

/-- The depth cap MAX_CRAWL_DEPTH of the source. -/
def MAX_CRAWL_DEPTH : Nat := 2

/-- One collected link of the crawler's in-page evaluate: an href and the
anchor text (empty for data-attribute and onclick links). -/
structure LinkItem where
  href : String
  text : String
deriving Repr, DecidableEq

/-- What loading one page yields in the crawler: the collected links and the
result of the search-form evaluate (the constructed search URL for the crawl
keyword, when a GET search form is present). -/
structure PageData where
  hrefs : List LinkItem
  searchUrl : Option String
deriving Repr

/-- Environment of one crawl: URL normalization against the fixed base URL,
the same-origin-or-subdomain test, the page world (none models a navigation
or evaluation failure, swallowed by the source), and the crawl keyword. -/
structure CrawlEnv where
  normalize : String → Option String
  sameOrigin : String → Bool
  world : String → Option PageData
  keyword : String

/-- Mutable crawl variables other than the visited set. -/
structure CrawlState where
  queue : List (String × Nat)
  productCandidates : List (String × Nat)
  searchCandidates : List String
  fallbackSearchUrl : Option String
  addedCategoryUrls : Nat
  searchOnlyMode : Bool
deriving Repr

/-- Lookup a candidate's best score, zero when absent; models
productCandidates.get with the nullish-zero default. -/
def lookupScore (m : List (String × Nat)) (url : String) : Nat :=
  match m.find? (fun p => p.1 = url) with
  | some p => p.2
  | none => 0

/-- Set a candidate's score, models productCandidates.set. -/
def setScore (m : List (String × Nat)) (url : String) (s : Nat) : List (String × Nat) :=
  if m.any (fun p => p.1 = url) then
    m.map (fun p => if p.1 = url then (url, s) else p)
  else m ++ [(url, s)]

/-- Add to a string set preserving insertion order. -/
def addUnique (l : List String) (x : String) : List String :=
  if l.contains x then l else l ++ [x]

/-- Body of the for-loop over collected links in crawlProductUrls, for one
link item, processing the page at the given normalized URL and depth. -/
def processHref (env : CrawlEnv) (normalized : String) (depth : Nat)
    (st : CrawlState) (item : LinkItem) : CrawlState :=
  match env.normalize item.href with
  | none => st
  | some absolute =>
    if !env.sameOrigin absolute then st
    else
      let st1 :=
        if !st.searchOnlyMode ∧ depth = 0 ∧ st.addedCategoryUrls < 5 ∧
            (substrOf "category" (jsToLower absolute) ∨ substrOf "cate_no=" (jsToLower absolute)) then
          { st with queue := st.queue ++ [(absolute, depth + 1)],
                    addedCategoryUrls := st.addedCategoryUrls + 1 }
        else st
      let score := scoreProductUrl absolute + scoreKeywordMatch absolute env.keyword +
        scoreKeywordText item.text env.keyword
      let st2 :=
        if 0 < score ∧ lookupScore st1.productCandidates absolute < score then
          { st1 with productCandidates := setScore st1.productCandidates absolute score }
        else st1
      let st3 :=
        if st2.fallbackSearchUrl ≠ none ∧ st2.fallbackSearchUrl = some normalized then
          { st2 with searchCandidates := addUnique st2.searchCandidates absolute }
        else st2
      if !st3.searchOnlyMode ∧ depth + 1 ≤ MAX_CRAWL_DEPTH then
        { st3 with queue := st3.queue ++ [(absolute, depth + 1)] }
      else st3

/-- Processing of one freshly visited page in crawlProductUrls: load the
page (failures are swallowed), run the depth-zero search-form short-circuit,
otherwise fold the link loop over the collected hrefs. -/
def crawlProcess (env : CrawlEnv) (normalized : String) (depth : Nat)
    (st : CrawlState) : CrawlState :=
  match env.world normalized with
  | none => st
  | some page =>
    if st.fallbackSearchUrl = none ∧ depth = 0 then
      match page.searchUrl with
      | some searchUrl =>
        { st with fallbackSearchUrl := some searchUrl,
                  searchOnlyMode := true,
                  queue := [(searchUrl, min (depth + 1) MAX_CRAWL_DEPTH)] }
      | none => page.hrefs.foldl (processHref env normalized depth) st
    else page.hrefs.foldl (processHref env normalized depth) st

/-- The while-loop of crawlProductUrls: run while the queue is non-empty and
fewer than MAX_CRAWL_PAGES pages have been visited; pop, normalize, skip
already-visited pages, else mark visited and process. -/
def crawlLoop (env : CrawlEnv) (visited : List String) (st : CrawlState) :
    List String × CrawlState :=
  if h5 : visited.length < MAX_CRAWL_PAGES then
    match hq : st.queue with
    | [] => (visited, st)
    | (url, depth) :: rest =>
      match env.normalize url with
      | none => crawlLoop env visited { st with queue := rest }
      | some normalized =>
        if visited.contains normalized then
          crawlLoop env visited { st with queue := rest }
        else
          crawlLoop env (visited ++ [normalized])
            (crawlProcess env normalized depth { st with queue := rest })
  else (visited, st)
termination_by (MAX_CRAWL_PAGES - visited.length, st.queue.length)
decreasing_by
  all_goals first
  | (apply Prod.Lex.left
     simp only [List.length_append, List.length_cons, List.length_nil]
     omega)
  | (apply Prod.Lex.right
     simp [hq])

/-- Result record of crawlProductUrls. -/
structure CrawlResult where
  visited : List String
  productCandidates : List (String × Nat)
  fallbackSearchUrl : Option String
  searchCandidates : List String
deriving Repr

/-- Embedding of crawlProductUrls: seed the queue with the start URL at depth
zero, run the crawl loop, and return the visited set together with the
score-sorted candidate list, the discovered search URL and the search-page
candidates. -/
def crawlProductUrls (env : CrawlEnv) (startUrl : String) : CrawlResult :=
  let st0 : CrawlState :=
    { queue := [(startUrl, 0)], productCandidates := [], searchCandidates := [],
      fallbackSearchUrl := none, addedCategoryUrls := 0, searchOnlyMode := false }
  let out := crawlLoop env [] st0
  { visited := out.1,
    productCandidates := sortByKeyDesc (fun p => p.2) out.2.productCandidates,
    fallbackSearchUrl := out.2.fallbackSearchUrl,
    searchCandidates := out.2.searchCandidates }

/-- One input element of the probed page: its relevant attributes (empty
string models an absent attribute, as the source reads them through a
nullish-empty default) and its enclosing form, when any. -/
structure FormEl where
  action : String
  method : String
  formId : String
  formClassName : String
deriving Repr, DecidableEq

/-- An input element together with its closest enclosing form. -/
structure InputEl where
  inputType : String
  name : String
  elemId : String
  elemClassName : String
  placeholder : String
  form : Option FormEl
deriving Repr, DecidableEq

/-- One loaded page of the probe: its URL, the input elements in document
order, and the body text. -/
structure PageDom where
  pageUrl : String
  inputs : List InputEl
  bodyText : String
deriving Repr

/-- Environment of the probe: URL construction for the submission (action,
base URL, input name, keyword; none models a throwing URL constructor),
navigation (the page obtained by loading a URL), the effect of clicking the
element with a given id on the current page (none when no such element), and
the expected product name. -/
structure ProbeEnv where
  mkUrl : String → String → String → String → Option String
  navigate : String → PageDom
  click : PageDom → String → Option PageDom
  productName : String

/-- Input selection of readSearchInfo: the priority chain of selectors, each
scanning the whole document in order. -/
def selectSearchInput (inputs : List InputEl) : Option InputEl :=
  match inputs.find? (fun i => i.inputType = "search") with
  | some i => some i
  | none =>
    match inputs.find? (fun i => substrOf "search" (jsToLower i.name)) with
    | some i => some i
    | none =>
      match inputs.find? (fun i => substrOf "query" (jsToLower i.name)) with
      | some i => some i
      | none =>
        match inputs.find? (fun i => substrOf "keyword" (jsToLower i.name)) with
        | some i => some i
        | none =>
          match inputs.find? (fun i => substrOf "kwrd" (jsToLower i.name)) with
          | some i => some i
          | none => inputs.find? (fun i => substrOf "q" (jsToLower i.name))

/-- Result of one readSearchInfo evaluation: a typed failure reason
carrying the candidate input's id (only populated for a missing form), or a
submission URL with the input name. -/
inductive SearchRead where
  | err (reason : String) (inputId : String)
  | ok (action : String) (inputName : String)
deriving Repr, DecidableEq

/-- Embedding of the readSearchInfo evaluate of checkSearchFormAvailability:
select an input, require an enclosing form with GET method, then build the
submission URL by setting the input's parameter on the resolved action. -/
def readSearchInfo (env : ProbeEnv) (page : PageDom) (kw : String) : SearchRead :=
  match selectSearchInput page.inputs with
  | none => .err "input_not_found" ""
  | some inp =>
    match inp.form with
    | none => .err "form_not_found" inp.elemId
    | some form =>
      let method := jsToLower (if form.method = "" then "get" else form.method)
      if method ≠ "get" then .err "method_not_get" ""
      else
        let action := if form.action = "" then page.pageUrl else form.action
        let name := if inp.name = "" then "q" else inp.name
        match env.mkUrl action page.pageUrl name kw with
        | some u => .ok u name
        | none => .err "invalid_action_url" ""

/-- Outcome of one probe attempt: availability, the reported reason (none on
a submitted probe), whether a navigation was performed, the price-pattern
secondary signal, and the page the browser is left on. -/
structure ProbeStep where
  available : Bool
  reason : Option String
  navigated : Bool
  priceHit : Bool
  page : PageDom

/-- Embedding of the probe closure of checkSearchFormAvailability: read the
search info, on a missing form click the candidate input's id once and
re-read, and on a valid submission URL navigate and test the result page's
text for the product name or the submitted keyword. -/
def probeOnce (env : ProbeEnv) (page : PageDom) (kw : String) : ProbeStep :=
  let first := readSearchInfo env page kw
  let retried :=
    match first with
    | .err reason inputId =>
      if reason = "form_not_found" ∧ jsTrim inputId ≠ "" then
        match env.click page (jsTrim inputId) with
        | some page2 => (readSearchInfo env page2 kw, page2)
        | none => (first, page)
      else (first, page)
    | .ok _ _ => (first, page)
  match retried with
  | (.err reason _, page2) =>
    { available := false, reason := some reason, navigated := false,
      priceHit := false, page := page2 }
  | (.ok action _, _) =>
    let page3 := env.navigate action
    let bodyText := page3.bodyText
    let normalized := jsToLower (jsCompressWs bodyText)
    let nameHit := substrOf (jsToLower env.productName) normalized ||
      substrOf (jsToLower kw) normalized
    let priceHit := hasWonPrice bodyText.toList || extractCurrencyPrice bodyText ≠ ""
    { available := nameHit, reason := none, navigated := true,
      priceHit := priceHit, page := page3 }

/-- One keyword round of checkSearchFormAvailability: probe each keyword in
order on the current page, early-exit on availability, and thread the page,
the last reported reason and whether any navigation happened. -/
def probeKeywords (env : ProbeEnv) : PageDom → List String → Option String → Bool →
    Bool × PageDom × Option String × Bool
  | page, [], lastReason, nav => (false, page, lastReason, nav)
  | page, kw :: rest, lastReason, nav =>
    let out := probeOnce env page kw
    if out.available then (true, out.page, lastReason, nav || out.navigated)
    else probeKeywords env out.page rest out.reason (nav || out.navigated)

/-- Final outcome of checkSearchFormAvailability: availability, the reason
field of the reported info (none when info is null or carries no reason),
and whether any navigation happened during the probes. -/
structure CheckOutcome where
  available : Bool
  reason : Option String
  navigated : Bool
deriving Repr, DecidableEq

/-- Embedding of checkSearchFormAvailability: deduplicate the trimmed
keywords, probe them once on the homepage, then once more after the settle
delay, and report the last probe's reason on total failure. -/
def checkSearchFormAvailability (env : ProbeEnv) (homepage : PageDom)
    (searchKeywords : List String) : CheckOutcome :=
  let keywords := dedupFirst ((searchKeywords.map jsTrim).filter (fun k => k ≠ ""))
  if keywords = [] then { available := false, reason := none, navigated := false }
  else
    let round1 := probeKeywords env homepage keywords none false
    if round1.1 then { available := true, reason := none, navigated := round1.2.2.2 }
    else
      let round2 := probeKeywords env round1.2.1 keywords round1.2.2.1 round1.2.2.2
      if round2.1 then { available := true, reason := none, navigated := round2.2.2.2 }
      else
        { available := false,
          reason := some (match round2.2.2.1 with | some r => r | none => "all_probe_failed"),
          navigated := round2.2.2.2 }

/-- One raw product row of the oracle output consumed by
collectSearchFormProducts; absent JSON fields are modelled as empty
strings, matching the nullish-empty reads of the source. -/
structure RawProduct where
  url : String
  productName : String
  listPrice : String
  salePrice : String
  imageSrc : String
  reason : String
deriving Repr, DecidableEq

/-- The SearchFormProductItem record of the source. -/
structure SearchFormProductItem where
  url : String
  productName : String
  listPrice : String
  salePrice : String
  imageSrc : String
  score : Nat
  reason : String
  keywordUsed : String
deriving Repr, DecidableEq

/-- Embedding of hasPriorityKeywordMatch: case-insensitive,
whitespace-stripped containment of any non-empty keyword. -/
def hasPriorityKeywordMatch (text : String) (keywords : List String) : Bool :=
  let normalizedText := stripWs (jsToLower text)
  if normalizedText = "" then false
  else keywords.any (fun kw =>
    let normalizedKw := stripWs (jsToLower kw)
    normalizedKw ≠ "" && substrOf normalizedKw normalizedText)

/-- The effective keyword list of collectSearchFormProducts: deduplicated
trimmed search keywords, with the trimmed fallback keyword pushed when that
list is empty and the fallback is non-empty. -/
def effectiveKeywords (searchKeywords : List String) (fallbackKeyword : String) : List String :=
  let keywords := dedupFirst ((searchKeywords.map jsTrim).filter (fun v => v ≠ ""))
  if keywords = [] ∧ jsTrim fallbackKeyword ≠ "" then [jsTrim fallbackKeyword] else keywords

/-- Embedding of the post-processing tail of collectSearchFormProducts over
the oracle output: the browser attempts and the oracle call are modelled by
the parsed product rows, and resolveUrl models the URL constructor resolving
a raw URL against the confirmed page (none when construction throws).  Items
without a product name or without any price are dropped, the priority-keyword
score is attached, and the list is sorted by score and truncated to ten. -/
def collectSearchFormProducts (confirmedUrl : String) (searchKeywords : List String)
    (fallbackKeyword : String) (resolveUrl : String → String → Option String)
    (parsedProducts : List RawProduct) : List SearchFormProductItem :=
  let keywords := effectiveKeywords searchKeywords fallbackKeyword
  if keywords = [] then []
  else
    let collected := parsedProducts.filterMap (fun item =>
      let productName := jsTrim item.productName
      let listPrice := jsTrim item.listPrice
      let salePrice := jsTrim item.salePrice
      let imageSrc := jsTrim item.imageSrc
      if productName = "" ∨ (listPrice = "" ∧ salePrice = "") then none
      else
        let raw := jsTrim item.url
        let url :=
          if raw = "" then ""
          else match resolveUrl confirmedUrl raw with
            | some u => u
            | none => raw
        let k0 := match keywords with | [] => "" | k :: _ => k
        some
          ({ url := url, productName := productName, listPrice := listPrice,
             salePrice := salePrice, imageSrc := imageSrc, score := 0,
             reason := (if item.reason = "" then "search_form_text_parse" else item.reason) ++
               (if url = "" then " | detail_url_not_resolved" else ""),
             keywordUsed := if k0 = "" then fallbackKeyword else k0 } : SearchFormProductItem))
    let scored := collected.map (fun item =>
      { item with score :=
          if hasPriorityKeywordMatch (item.productName ++ " " ++ item.url ++ " " ++ item.reason) keywords
          then 10 else 0 })
    (sortByKeyDesc (fun i => i.score) scored).take 10

/-- The oracle correction consumed by the POST merge step, with absent JSON
fields modelled as empty strings. -/
structure OracleFill where
  productName : String
  listPrice : String
  salePrice : String
  detailUrl : String
  reason : String
deriving Repr, DecidableEq

/-- One parsed candidate of the POST handler. -/
structure FinalCandidate where
  url : String
  productName : String
  listPrice : String
  salePrice : String
  score : Nat
  reason : String
deriving Repr, DecidableEq

/-- JavaScript string-or fallback: the left operand unless it is empty. -/
def strOr (a b : String) : String :=
  if a = "" then b else a

/-- Embedding of the candidate-merge step of the POST handler: when the
oracle returned any non-empty field, prefer its fields over the DOM-derived
candidate field by field, else keep the DOM candidate unchanged. -/
def mergeCandidate (candidate : ProductSignals) (corrected : OracleFill) : FinalCandidate :=
  if corrected.productName ≠ "" ∨ corrected.listPrice ≠ "" ∨ corrected.salePrice ≠ "" then
    { url := strOr corrected.detailUrl candidate.url,
      productName := strOr corrected.productName candidate.productName,
      listPrice := strOr corrected.listPrice candidate.listPrice,
      salePrice := strOr corrected.salePrice candidate.salePrice,
      score := candidate.score,
      reason := "Gemini corrected" }
  else
    { url := candidate.url, productName := candidate.productName,
      listPrice := candidate.listPrice, salePrice := candidate.salePrice,
      score := candidate.score, reason := "DOM parsed" }

lemma stringMk_eq_empty_iff (l : List Char) : String.mk l = "" ↔ l = [] := by
  constructor
  · intro h
    have : (String.mk l).data = ("" : String).data := by rw [h]
    simpa using this
  · intro h
    subst h
    rfl

lemma scoreFold_eq_count (hay : String) (l : List String) (a : Nat) :
    l.foldl
      (fun score token =>
        if jsLength token < 2 then score
        else if substrOf token hay then score + 1 else score) a =
      a + (l.filter (fun t => 2 ≤ jsLength t && substrOf t hay)).length := by
  induction l generalizing a with
  | nil => simp
  | cons x xs ih =>
    simp only [List.foldl_cons, List.filter_cons]
    by_cases h1 : jsLength x < 2
    · have h2 : ¬ (2 ≤ jsLength x) := by omega
      simp [h1, h2, ih]
    · have h2 : 2 ≤ jsLength x := by omega
      by_cases h3 : substrOf x hay
      · simp [h1, h2, h3, ih]
        omega
      · simp [h1, h2, h3, ih]

lemma mem_dedupGo (x : String) : ∀ (l seen : List String), x ∈ dedupGo l seen → x ∈ l := by
  intro l
  induction l with
  | nil => intro seen h; simp [dedupGo] at h
  | cons y ys ih =>
    intro seen h
    rw [dedupGo] at h
    by_cases hc : seen.contains y
    · simp only [hc, if_true] at h
      exact List.mem_cons_of_mem y (ih _ h)
    · simp only [hc, if_false] at h
      rcases List.mem_cons.mp h with h1 | h1
      · simp [h1]
      · exact List.mem_cons_of_mem y (ih _ h1)

lemma mem_insertByKeyDesc {α : Type} (key : α → Nat) (x a : α) (l : List α) :
    a ∈ insertByKeyDesc key x l ↔ a = x ∨ a ∈ l := by
  induction l with
  | nil => simp [insertByKeyDesc]
  | cons y ys ih =>
    rw [insertByKeyDesc]
    by_cases h : key y < key x
    · simp [h]
    · simp only [h, if_false, List.mem_cons, ih]
      tauto

lemma mem_sortByKeyDesc {α : Type} (key : α → Nat) (a : α) (l : List α) :
    a ∈ sortByKeyDesc key l ↔ a ∈ l := by
  induction l with
  | nil => simp [sortByKeyDesc]
  | cons y ys ih =>
    rw [sortByKeyDesc, mem_insertByKeyDesc]
    simp [ih]

lemma pairwise_insertByKeyDesc {α : Type} (key : α → Nat) (x : α) (l : List α)
    (h : l.Pairwise (fun a b => key b ≤ key a)) :
    (insertByKeyDesc key x l).Pairwise (fun a b => key b ≤ key a) := by
  induction l with
  | nil => simp [insertByKeyDesc]
  | cons y ys ih =>
    rw [insertByKeyDesc]
    rw [List.pairwise_cons] at h
    by_cases hk : key y < key x
    · rw [if_pos hk, List.pairwise_cons]
      constructor
      · intro z hz
        rcases List.mem_cons.mp hz with h1 | h1
        · subst h1; omega
        · have := h.1 z h1
          omega
      · exact List.pairwise_cons.mpr h
    · rw [if_neg hk, List.pairwise_cons]
      constructor
      · intro z hz
        rcases (mem_insertByKeyDesc key x z ys).mp hz with h1 | h1
        · subst h1; omega
        · exact h.1 z h1
      · exact ih h.2

lemma pairwise_sortByKeyDesc {α : Type} (key : α → Nat) (l : List α) :
    (sortByKeyDesc key l).Pairwise (fun a b => key b ≤ key a) := by
  induction l with
  | nil => simp [sortByKeyDesc]
  | cons y ys ih => exact pairwise_insertByKeyDesc key y _ ih

lemma length_insertByKeyDesc {α : Type} (key : α → Nat) (x : α) (l : List α) :
    (insertByKeyDesc key x l).length = l.length + 1 := by
  induction l with
  | nil => simp [insertByKeyDesc]
  | cons y ys ih =>
    rw [insertByKeyDesc]
    by_cases h : key y < key x <;> simp [h, ih]

lemma length_sortByKeyDesc {α : Type} (key : α → Nat) (l : List α) :
    (sortByKeyDesc key l).length = l.length := by
  induction l with
  | nil => rfl
  | cons y ys ih => rw [sortByKeyDesc, length_insertByKeyDesc, ih]; rfl

lemma takeWhile_all_eq_self {p : Char → Bool} : ∀ (l : List Char), l.all p → l.takeWhile p = l := by
  intro l
  induction l with
  | nil => intro _; rfl
  | cons c cs ih =>
    intro h
    rw [List.all_cons] at h
    have h1 := (Bool.and_eq_true _ _).mp h
    rw [List.takeWhile_cons, if_pos h1.1, ih h1.2]

lemma dropWhile_all_eq_nil {p : Char → Bool} : ∀ (l : List Char), l.all p → l.dropWhile p = [] := by
  intro l
  induction l with
  | nil => intro _; rfl
  | cons c cs ih =>
    intro h
    rw [List.all_cons] at h
    have h1 := (Bool.and_eq_true _ _).mp h
    rw [List.dropWhile_cons, if_pos h1.1]
    exact ih h1.2

/-- C2: fetchProductSignals is total over its modelled browser outcome; the
returned record always carries the input URL, and on any internal failure
(the catch branch, modelled by the absent evaluate result) every other
string field is empty and the score is zero, so no exception propagates. -/
theorem fetchProductSignals_never_throws (url : String) (result : Option EvalResult) :
    (fetchProductSignals url result).url = url ∧
    fetchProductSignals url none =
      { url := url, text := "", priceBlockText := "", titleBlockText := "",
        priceLines := "", currencyHint := "", imageSrc := "", productName := "",
        listPrice := "", salePrice := "", score := 0 } := by
  cases result with
  | none => exact ⟨rfl, rfl⟩
  | some r => exact ⟨rfl, rfl⟩

/-- C6 counterexample: for the empty keyword the whitespace-stripped
lower-cased keyword is a substring of every lower-cased URL, yet
scoreKeywordMatch returns 0, not 3, so the claimed case split fails at the
empty keyword. -/
theorem scoreKeywordMatch_empty_keyword_cex :
    substrOf (stripWs (jsToLower "")) (jsToLower "https://shop.example/a") = true ∧
    scoreKeywordMatch "https://shop.example/a" "" = 0 ∧
    scoreKeywordText "anchor text" "" = 0 := by
  refine ⟨by decide, by decide, by decide⟩

/-- C6 (amended): when the whitespace-stripped lower-cased keyword is empty
both scorers return 0; otherwise scoreKeywordMatch returns 3 exactly when
the lower-cased URL contains the stripped keyword and else the number of
whitespace-split tokens of length at least two contained in the lower-cased
URL, and scoreKeywordText behaves identically on the anchor text with 4 for
the exact normalized match. -/
theorem scoreKeyword_functions_spec (url text keyword : String) :
    (stripWs (jsToLower keyword) = "" →
      scoreKeywordMatch url keyword = 0 ∧ scoreKeywordText text keyword = 0) ∧
    (stripWs (jsToLower keyword) ≠ "" →
      (substrOf (stripWs (jsToLower keyword)) (jsToLower url) = true →
        scoreKeywordMatch url keyword = 3) ∧
      (substrOf (stripWs (jsToLower keyword)) (jsToLower url) = false →
        scoreKeywordMatch url keyword = tokenMatchCount (jsToLower url) keyword) ∧
      (substrOf (stripWs (jsToLower keyword)) (jsToLower text) = true →
        scoreKeywordText text keyword = 4) ∧
      (substrOf (stripWs (jsToLower keyword)) (jsToLower text) = false →
        scoreKeywordText text keyword = tokenMatchCount (jsToLower text) keyword)) := by
  constructor
  · intro h
    constructor
    · rw [scoreKeywordMatch]
      simp [h]
    · rw [scoreKeywordText]
      simp [h]
  · intro h
    refine ⟨?_, ?_, ?_, ?_⟩
    · intro hsub
      rw [scoreKeywordMatch]
      simp [h, hsub]
    · intro hsub
      rw [scoreKeywordMatch]
      simp only [h, if_false, hsub, Bool.false_eq_true]
      rw [scoreFold_eq_count]
      simp [tokenMatchCount]
    · intro hsub
      rw [scoreKeywordText]
      simp [h, hsub]
    · intro hsub
      rw [scoreKeywordText]
      simp only [h, if_false, hsub, Bool.false_eq_true]
      rw [scoreFold_eq_count]
      simp [tokenMatchCount]

/-- C6 witness: the amended specification evaluated at concrete inputs. -/
theorem scoreKeyword_functions_spec_witness :
    stripWs (jsToLower "fan prime") ≠ "" ∧
    substrOf (stripWs (jsToLower "fan prime")) (jsToLower "https://shop.example/fanprime") = true ∧
    scoreKeywordMatch "https://shop.example/fanprime" "fan prime" = 3 ∧
    scoreKeywordMatch "https://shop.example/fan-only" "fan prime" =
      tokenMatchCount (jsToLower "https://shop.example/fan-only") "fan prime" := by
  refine ⟨by decide, by decide, ?_, ?_⟩
  · exact ((scoreKeyword_functions_spec "https://shop.example/fanprime" "x" "fan prime").2
      (by decide)).1 (by decide)
  · exact (((scoreKeyword_functions_spec "https://shop.example/fan-only" "x" "fan prime").2
      (by decide)).2).1 (by decide)

/-- C5: a title candidate is rejected exactly when, after whitespace
normalization, it is empty, of length at most three, purely numeric, or
contains a denylisted phrase case-insensitively; resolution returns the
first non-rejected candidate in the fixed order; and on the candidates
twelve, the shipping notice, and the fan product name, the third wins. -/
theorem resolveTitle_spec :
    (∀ v : String, isInvalidName v = true ↔
      (normalizeName v = "" ∨ jsLength (normalizeName v) ≤ 3 ∨
        (normalizeName v).toList.all Char.isDigit = true ∨
        denyPhrases.any (fun p => substrOf p (jsToLower (normalizeName v))) = true)) ∧
    (∀ (pre : List String) (c : String) (post : List String),
      (∀ x ∈ pre, isInvalidName (normalizeName x) = true) →
      isInvalidName (normalizeName c) = false →
      resolveTitle (pre ++ c :: post) = normalizeName c) ∧
    resolveTitle ["12", "배송안내", "무선선풍기 FAN PRIME 3"] = "무선선풍기 FAN PRIME 3" := by
  refine ⟨?_, ?_, by decide⟩
  · intro v
    rw [isInvalidName]
    split_ifs with h1 h2 h3 h4 <;> simp_all
  · intro pre c post hpre hc
    rw [resolveTitle]
    rw [List.map_append, List.map_cons, List.find?_append]
    have hnone : ((pre.map normalizeName).find? fun v => !isInvalidName v) = none := by
      rw [List.find?_eq_none]
      intro x hx
      rcases List.mem_map.mp hx with ⟨y, hy, hxy⟩
      subst hxy
      simp [hpre y hy]
    rw [hnone, Option.none_or]
    rw [List.find?_cons_of_pos]
    simp [hc]

/-- C5 witness: the first-non-rejected rule evaluated at the concrete
candidate list of the claim. -/
theorem resolveTitle_spec_witness :
    (∀ x ∈ ["12", "배송안내"], isInvalidName (normalizeName x) = true) ∧
    isInvalidName (normalizeName "무선선풍기 FAN PRIME 3") = false ∧
    resolveTitle (["12", "배송안내"] ++ "무선선풍기 FAN PRIME 3" :: []) =
      normalizeName "무선선풍기 FAN PRIME 3" := by
  refine ⟨by decide, by decide, ?_⟩
  exact resolveTitle_spec.2.1 ["12", "배송안내"] "무선선풍기 FAN PRIME 3" []
    (by decide) (by decide)

/-- C9 counterexample: a DOM candidate whose sale price exceeds its list
price is flagged anomalous by isPriceAnomalous, yet when the oracle returns
nothing the POST merge step keeps the anomalous DOM values unchanged with
the DOM-parsed reason: the pipeline does not consult the anomaly to prefer
oracle values, it never calls isPriceAnomalous at all. -/
theorem priceAnomaly_not_detected_cex :
    isPriceAnomalous "1,000원" "2,000원" = true ∧
    mergeCandidate
      { url := "https://shop.example/p", text := "", priceBlockText := "",
        titleBlockText := "", priceLines := "", currencyHint := "", imageSrc := "",
        productName := "Fan", listPrice := "1,000원", salePrice := "2,000원", score := 0 }
      { productName := "", listPrice := "", salePrice := "", detailUrl := "", reason := "" } =
      { url := "https://shop.example/p", productName := "Fan", listPrice := "1,000원",
        salePrice := "2,000원", score := 0, reason := "DOM parsed" } := by
  exact ⟨by decide, by decide⟩

/-- C9 (amended): isPriceAnomalous detects exactly the sale-exceeds-list
condition on parseable positive prices, but the POST pipeline never invokes
it: the merge step prefers oracle-corrected values exactly when the oracle
returned any non-empty field, independent of the anomaly, and with an empty
oracle result it passes the DOM values through unchanged while still
producing a complete record. -/
theorem priceAnomaly_spec :
    (∀ l s : String, isPriceAnomalous l s = true ↔
      ∃ ln sn, parsePriceNumber l = some ln ∧ parsePriceNumber s = some sn ∧ ln < sn) ∧
    (∀ (cand : ProductSignals) (corr : OracleFill),
      ((mergeCandidate cand corr).reason = "Gemini corrected" ↔
        (corr.productName ≠ "" ∨ corr.listPrice ≠ "" ∨ corr.salePrice ≠ "")) ∧
      (corr.productName = "" → corr.listPrice = "" → corr.salePrice = "" →
        mergeCandidate cand corr =
          { url := cand.url, productName := cand.productName,
            listPrice := cand.listPrice, salePrice := cand.salePrice,
            score := cand.score, reason := "DOM parsed" })) := by
  constructor
  · intro l s
    rw [isPriceAnomalous]
    cases hpl : parsePriceNumber l with
    | none =>
      simp only [Bool.false_eq_true]
      constructor
      · intro h
        exact absurd h (by simp)
      · rintro ⟨ln, sn, hl, _, _⟩
        cases hl
    | some ln =>
      cases hps : parsePriceNumber s with
      | none =>
        simp only [Bool.false_eq_true]
        constructor
        · intro h
          exact absurd h (by simp)
        · rintro ⟨ln2, sn, _, hs, _⟩
          cases hs
      | some sn =>
        simp only [decide_eq_true_eq]
        constructor
        · intro h
          exact ⟨ln, sn, rfl, rfl, h⟩
        · rintro ⟨ln2, sn2, hl, hs, hlt⟩
          cases hl
          cases hs
          exact hlt
  · intro cand corr
    constructor
    · rw [mergeCandidate]
      split_ifs with h
      · simpa using h
      · simp only [not_or, not_not] at h
        simp [h.1, h.2.1, h.2.2]
    · intro h1 h2 h3
      rw [mergeCandidate, if_neg]
      simp [h1, h2, h3]

/-- C9 witness: the amended merge behaviour evaluated at a concrete
anomalous candidate and an empty oracle result. -/
theorem priceAnomaly_spec_witness :
    mergeCandidate
      { url := "u", text := "", priceBlockText := "", titleBlockText := "",
        priceLines := "", currencyHint := "", imageSrc := "", productName := "Fan",
        listPrice := "1,000원", salePrice := "2,000원", score := 0 }
      { productName := "", listPrice := "", salePrice := "", detailUrl := "", reason := "" } =
      { url := "u", productName := "Fan", listPrice := "1,000원",
        salePrice := "2,000원", score := 0, reason := "DOM parsed" } := by
  exact (priceAnomaly_spec.2 _ _).2 rfl rfl rfl

lemma digitChar_isDigit (d : Nat) (h : d < 10) : (digitChar d).isDigit = true := by
  interval_cases d <;> decide

lemma digitChar_val (d : Nat) (h : d < 10) : (digitChar d).toNat - 48 = d := by
  interval_cases d <;> decide

lemma natDigitsF_spec : ∀ (fuel n : Nat), n < fuel →
    (natDigitsF fuel n).all Char.isDigit = true ∧ natDigitsF fuel n ≠ [] := by
  intro fuel
  induction fuel with
  | zero => intro n hn; omega
  | succ f ih =>
    intro n hn
    rw [natDigitsF]
    by_cases h10 : n < 10
    · simp [h10, digitChar_isDigit n h10]
    · have hdivlt : n / 10 < n := Nat.div_lt_self (by omega) (by omega)
      have hdiv : n / 10 < f := by omega
      obtain ⟨ha, hne⟩ := ih (n / 10) hdiv
      have hmod : n % 10 < 10 := Nat.mod_lt _ (by omega)
      simp [h10, List.all_append, ha, digitChar_isDigit (n % 10) hmod]

lemma digitsToNat_append_single (l : List Char) (c : Char) :
    digitsToNat (l ++ [c]) = 10 * digitsToNat l + (c.toNat - 48) := by
  rw [digitsToNat, digitsToNat, List.foldl_append]
  simp [List.foldl_cons]
  omega

lemma digitsToNat_natDigitsF : ∀ (fuel n : Nat), n < fuel →
    digitsToNat (natDigitsF fuel n) = n := by
  intro fuel
  induction fuel with
  | zero => intro n hn; omega
  | succ f ih =>
    intro n hn
    rw [natDigitsF]
    by_cases h10 : n < 10
    · simp only [h10, if_true]
      rw [digitsToNat]
      simp only [List.foldl_cons, List.foldl_nil]
      rw [Nat.zero_mul, Nat.zero_add, digitChar_val n h10]
    · have hdivlt : n / 10 < n := Nat.div_lt_self (by omega) (by omega)
      have hdiv : n / 10 < f := by omega
      have hmod : n % 10 < 10 := Nat.mod_lt _ (by omega)
      simp only [h10, if_false]
      rw [digitsToNat_append_single, ih (n / 10) hdiv, digitChar_val (n % 10) hmod]
      omega

lemma comma_not_digit : (',' : Char).isDigit = false := by decide

lemma commaGroups_digits_none : ∀ (l : List Char), l.all Char.isDigit = true →
    commaGroups l = none := by
  intro l h
  match l with
  | [] => rfl
  | [c] => rfl
  | [c, d1] => rfl
  | [c, d1, d2] => rfl
  | c :: d1 :: d2 :: d3 :: rest =>
    rw [commaGroups]
    rw [if_neg]
    rintro ⟨hc, -⟩
    rw [List.all_cons] at h
    have := (Bool.and_eq_true _ _).mp h
    rw [hc] at this
    simp [comma_not_digit] at this

lemma tryGroupedK_digits_none (k : Nat) (l : List Char) (h : l.all Char.isDigit = true) :
    tryGroupedK k l = none := by
  rw [tryGroupedK]
  split_ifs with hc
  · have hdrop : (l.drop k).all Char.isDigit = true := by
      rw [List.all_eq_true] at h ⊢
      intro x hx
      exact h x (List.mem_of_mem_drop hx)
    rw [commaGroups_digits_none _ hdrop]
  · rfl

lemma tryGrouped_digits_none (l : List Char) (h : l.all Char.isDigit = true) :
    tryGrouped l = none := by
  rw [tryGrouped]
  rw [tryGroupedK_digits_none 3 l h, tryGroupedK_digits_none 2 l h, tryGroupedK_digits_none 1 l h]

lemma tryPlain_digits (l : List Char) (h : l.all Char.isDigit = true) (hne : l ≠ []) :
    tryPlain l = some (l, []) := by
  rw [tryPlain]
  rw [takeWhile_all_eq_self l h, dropWhile_all_eq_nil l h]
  rw [if_neg hne]

lemma scanMatchesF_nil : ∀ fuel : Nat, scanMatchesF fuel [] = [] := by
  intro fuel
  cases fuel <;> rfl

lemma scanMatches_digits (l : List Char) (h : l.all Char.isDigit = true) (hne : l ≠ []) :
    scanMatches l = [l] := by
  rw [scanMatches]
  match l with
  | [] => exact absurd rfl hne
  | c :: cs =>
    show scanMatchesF (cs.length + 1) (c :: cs) = [c :: cs]
    rw [scanMatchesF]
    rw [tryGrouped_digits_none _ h]
    rw [tryPlain_digits _ h hne]
    simp [scanMatchesF_nil]

lemma filter_ne_comma_of_digits (l : List Char) (h : l.all Char.isDigit = true) :
    l.filter (fun c => c ≠ ',') = l := by
  rw [List.filter_eq_self]
  intro a ha
  rw [List.all_eq_true] at h
  have hd := h a ha
  simp only [ne_eq, decide_eq_true_eq]
  intro hc
  rw [hc] at hd
  simp [comma_not_digit] at hd

lemma natToString_ne_empty (n : Nat) : natToString n ≠ "" := by
  rw [natToString]
  intro h
  exact (natDigitsF_spec (n + 1) n (by omega)).2 ((stringMk_eq_empty_iff _).mp h)

lemma log2F_spec : ∀ (fuel n : Nat), 1 ≤ n → n ≤ fuel →
    2 ^ log2F fuel n ≤ n ∧ n < 2 ^ (log2F fuel n + 1) := by
  intro fuel
  induction fuel with
  | zero => intro n h1 h2; omega
  | succ f ih =>
    intro n h1 h2
    rw [log2F]
    by_cases hn1 : n ≤ 1
    · have hn : n = 1 := by omega
      subst hn
      simp
    · rw [if_neg hn1]
      have hhalf1 : 1 ≤ n / 2 := by omega
      have hhalf2 : n / 2 ≤ f := by omega
      obtain ⟨ha, hb⟩ := ih (n / 2) hhalf1 hhalf2
      constructor
      · rw [pow_succ]
        have h2a : 2 ^ log2F f (n / 2) * 2 ≤ n / 2 * 2 := Nat.mul_le_mul_right 2 ha
        omega
      · rw [pow_succ]
        have h2b : (n / 2 + 1) * 2 ≤ 2 ^ (log2F f (n / 2) + 1) * 2 :=
          Nat.mul_le_mul_right 2 (by omega)
        omega

lemma natLog2_spec (n : Nat) (h : 1 ≤ n) :
    2 ^ natLog2 n ≤ n ∧ n < 2 ^ (natLog2 n + 1) :=
  log2F_spec n n h le_rfl

lemma natLog2_eq (n b : Nat) (h1 : 2 ^ b ≤ n) (h2 : n < 2 ^ (b + 1)) : natLog2 n = b := by
  have hn1 : 1 ≤ n := le_trans Nat.one_le_two_pow h1
  obtain ⟨ha, hb⟩ := natLog2_spec n hn1
  by_contra hne
  rcases Nat.lt_or_ge (natLog2 n) b with hlt | hge
  · have hle : 2 ^ (natLog2 n + 1) ≤ 2 ^ b := Nat.pow_le_pow_right (by omega) (by omega)
    omega
  · have hgt : b < natLog2 n := by omega
    have hle : 2 ^ (b + 1) ≤ 2 ^ natLog2 n := Nat.pow_le_pow_right (by omega) (by omega)
    omega

lemma roundDouble_exact (v b : Nat) (hb53 : 53 ≤ b) (h1 : 2 ^ b ≤ v)
    (h2 : v < 2 ^ (b + 1)) (hdvd : 2 ^ (b - 52) ∣ v) (hover : v < 2 ^ 1024) :
    roundDouble v = some v := by
  have hvbig : ¬ v < 2 ^ 53 := by
    have hle : (2 : Nat) ^ 53 ≤ 2 ^ b := Nat.pow_le_pow_right (by omega) hb53
    omega
  have hsc : roundScale v = 2 ^ (b - 52) := by
    rw [roundScale, natLog2_eq v b h1 h2]
  have hscale : 0 < 2 ^ (b - 52) := Nat.pos_pow_of_pos _ (by omega)
  have hmod : v % 2 ^ (b - 52) = 0 := by
    obtain ⟨c, hc⟩ := hdvd
    rw [hc]
    exact Nat.mul_mod_right _ _
  have hq : roundQ v = v / 2 ^ (b - 52) := by
    rw [roundQ, hsc, hmod]
    rw [if_neg (by omega)]
  rw [roundDouble, if_neg hvbig, hq, hsc, Nat.div_mul_cancel hdvd, if_pos hover]

lemma roundDouble_idem (w v : Nat) (h : roundDouble w = some v) :
    roundDouble v = some v := by
  rw [roundDouble] at h
  split_ifs at h with hsmall hover
  · injection h with h1
    subst h1
    rw [roundDouble, if_pos hsmall]
  · injection h with h1
    have hw1 : 1 ≤ w := by
      have hp : (0 : Nat) < 2 ^ 53 := Nat.pos_pow_of_pos _ (by omega)
      omega
    obtain ⟨hblo, hbhi⟩ := natLog2_spec w hw1
    have hb53 : 53 ≤ natLog2 w := by
      by_contra hlt
      have hle : 2 ^ (natLog2 w + 1) ≤ 2 ^ 53 := Nat.pow_le_pow_right (by omega) (by omega)
      omega
    set b := natLog2 w with hbdef
    have hsc : roundScale w = 2 ^ (b - 52) := by rw [roundScale]
    have hscale : 0 < 2 ^ (b - 52) := Nat.pos_pow_of_pos _ (by omega)
    have hpow_b : 2 ^ 52 * 2 ^ (b - 52) = 2 ^ b := by
      rw [← pow_add]
      congr 1
      omega
    have hpow_b1 : 2 ^ 53 * 2 ^ (b - 52) = 2 ^ (b + 1) := by
      rw [← pow_add]
      congr 1
      omega
    have hq_lo : 2 ^ 52 ≤ w / 2 ^ (b - 52) := by
      rw [Nat.le_div_iff_mul_le hscale]
      omega
    have hq_hi : w / 2 ^ (b - 52) < 2 ^ 53 := by
      rw [Nat.div_lt_iff_lt_mul hscale]
      omega
    have hQ : roundQ w = w / 2 ^ (b - 52) ∨ roundQ w = w / 2 ^ (b - 52) + 1 := by
      rw [roundQ, hsc]
      split_ifs with hc
      · exact Or.inr rfl
      · exact Or.inl rfl
    have hQ_lo : 2 ^ 52 ≤ roundQ w := by rcases hQ with hq | hq <;> omega
    have hQ_hi : roundQ w ≤ 2 ^ 53 := by rcases hQ with hq | hq <;> omega
    rw [hsc] at h1 hover
    by_cases htop : roundQ w = 2 ^ 53
    · have hv : v = 2 ^ (b + 1) := by rw [← h1, htop, hpow_b1]
      apply roundDouble_exact v (b + 1) (by omega)
      · omega
      · have hmono : (2 : Nat) ^ (b + 1) < 2 ^ (b + 2) :=
          Nat.pow_lt_pow_right (by omega) (by omega)
        omega
      · have heq : 2 ^ (b + 1 - 52) * 2 ^ 52 = 2 ^ (b + 1) := by
          rw [← pow_add]
          congr 1
          omega
        rw [hv, ← heq]
        exact Dvd.intro _ rfl
      · omega
    · have hQ_hi2 : roundQ w < 2 ^ 53 := by omega
      apply roundDouble_exact v b hb53
      · rw [← h1]
        calc 2 ^ b = 2 ^ 52 * 2 ^ (b - 52) := hpow_b.symm
          _ ≤ roundQ w * 2 ^ (b - 52) := Nat.mul_le_mul_right _ hQ_lo
      · rw [← h1]
        calc roundQ w * 2 ^ (b - 52)
            < 2 ^ 53 * 2 ^ (b - 52) := (Nat.mul_lt_mul_right hscale).mpr hQ_hi2
          _ = 2 ^ (b + 1) := hpow_b1
      · rw [← h1]
        exact dvd_mul_left _ _
      · omega

lemma stringMk_toList (l : List Char) : (String.mk l).toList = l := rfl

lemma pickCand_sound (v a e s : Nat) (h : pickCand v a e = some s) :
    roundDouble (s * 10 ^ e) = some v := by
  rw [pickCand] at h
  split_ifs at h <;>
    first
      | (injection h with h; subst h; assumption)
      | (cases h)

lemma searchReprGo_sound (v d : Nat) : ∀ (fuel k s e : Nat),
    searchReprGo v d k fuel = some (s, e) → roundDouble (s * 10 ^ e) = some v := by
  intro fuel
  induction fuel with
  | zero => intro k s e h; cases h
  | succ f ih =>
    intro k s e h
    rw [searchReprGo] at h
    cases hp : pickCand v (v / 10 ^ (d - k)) (d - k) with
    | some s0 =>
      rw [hp] at h
      injection h with h
      injection h with h1 h2
      subst h1
      subst h2
      exact pickCand_sound v _ _ _ hp
    | none =>
      rw [hp] at h
      exact ih (k + 1) s e h

lemma normReprGo_inv : ∀ (fuel s e : Nat),
    (normReprGo fuel s e).1 * 10 ^ (normReprGo fuel s e).2 = s * 10 ^ e := by
  intro fuel
  induction fuel with
  | zero => intro s e; rfl
  | succ f ih =>
    intro s e
    rw [normReprGo]
    split_ifs with hc
    · rw [ih (s / 10) (e + 1)]
      have hdvd : 10 ∣ s := Nat.dvd_of_mod_eq_zero hc.1
      calc s / 10 * 10 ^ (e + 1) = s / 10 * 10 * 10 ^ e := by ring
        _ = s * 10 ^ e := by rw [Nat.div_mul_cancel hdvd]
    · rfl

lemma replicate_zero_all_digit : ∀ e : Nat, (List.replicate e '0').all Char.isDigit = true := by
  intro e
  induction e with
  | zero => rfl
  | succ f ih =>
    rw [List.replicate_succ, List.all_cons, ih]
    decide

lemma digitsToNat_append_zeros (l : List Char) : ∀ e : Nat,
    digitsToNat (l ++ List.replicate e '0') = digitsToNat l * 10 ^ e := by
  intro e
  induction e with
  | zero => simp
  | succ f ih =>
    rw [List.replicate_succ' f '0', ← List.append_assoc, digitsToNat_append_single, ih]
    have h0 : ('0' : Char).toNat - 48 = 0 := by decide
    rw [h0, pow_succ]
    ring

lemma foldl_max_mem : ∀ (xs : List Nat) (a : Nat),
    xs.foldl max a = a ∨ xs.foldl max a ∈ xs := by
  intro xs
  induction xs with
  | nil => intro a; exact Or.inl rfl
  | cons x xs ih =>
    intro a
    rw [List.foldl_cons]
    rcases ih (max a x) with h1 | h1
    · rcases Nat.le_total x a with hle | hle
      · left
        rw [h1, Nat.max_eq_left hle]
      · right
        rw [h1, Nat.max_eq_right hle]
        exact List.mem_cons_self x xs
    · exact Or.inr (List.mem_cons_of_mem _ h1)

lemma maxList_mem (l : List Nat) (h : l ≠ []) : maxList l ∈ l := by
  cases l with
  | nil => exact absurd rfl h
  | cons x xs =>
    rw [maxList]
    rcases foldl_max_mem xs x with h1 | h1
    · rw [h1]
      exact List.mem_cons_self x xs
    · exact List.mem_cons_of_mem _ h1

lemma bestPrice_mem (nums : List Nat) (h : nums ≠ []) : bestPrice nums ∈ nums := by
  rw [bestPrice]
  split_ifs with hf
  · exact List.mem_of_mem_filter (maxList_mem _ hf)
  · exact maxList_mem _ h

lemma bestPrice_single (b : Nat) : bestPrice [b] = b := by
  by_cases hb : 1000 ≤ b <;>
    simp [bestPrice, maxList, List.filter_cons, hb]

lemma normalizePrice_digit_some (l : List Char) (hd : l.all Char.isDigit = true)
    (hne : l ≠ []) (b : Nat) (hb : roundDouble (digitsToNat l) = some b) :
    normalizePrice (String.mk l) = jsDoubleToString b := by
  have hnempty : ¬ String.mk l = "" := fun hc => hne ((stringMk_eq_empty_iff l).mp hc)
  have hpn : priceNums (String.mk l) = [b] := by
    rw [priceNums, stringMk_toList, scanMatches_digits l hd hne]
    simp only [List.filterMap_cons, List.filterMap_nil]
    rw [filter_ne_comma_of_digits l hd, hb]
  rw [normalizePrice, if_neg hnempty]
  dsimp only
  rw [hpn, if_neg (List.cons_ne_nil b []), bestPrice_single]

lemma normalizePrice_cases (v : String) :
    normalizePrice v = "" ∨
      ∃ b, roundDouble b = some b ∧ normalizePrice v = jsDoubleToString b := by
  rw [normalizePrice]
  split_ifs with h1
  · exact Or.inl rfl
  · dsimp only
    split_ifs with h2
    · exact Or.inl rfl
    · refine Or.inr ⟨bestPrice (priceNums v), ?_, rfl⟩
      have hmem := bestPrice_mem _ h2
      rw [priceNums] at hmem
      obtain ⟨m, hm, hrd⟩ := List.mem_filterMap.mp hmem
      exact roundDouble_idem _ _ hrd

lemma jsDoubleToString_renorm (b : Nat) (hb : roundDouble b = some b)
    (hd : (jsDoubleToString b).toList.all Char.isDigit = true) :
    normalizePrice (jsDoubleToString b) = jsDoubleToString b := by
  by_cases h0 : b = 0
  · subst h0
    decide
  · cases hsr : searchRepr b with
    | none =>
      have hval : digitsToNat (natDigitsF (b + 1) b) = b :=
        digitsToNat_natDigitsF _ _ (by omega)
      have hspec := natDigitsF_spec (b + 1) b (by omega)
      rw [jsDoubleToString, if_neg h0, hsr]
      dsimp only
      rw [natToString]
      rw [normalizePrice_digit_some _ hspec.1 hspec.2 b (by rw [hval]; exact hb)]
      rw [jsDoubleToString, if_neg h0, hsr]
      dsimp only
      rw [natToString]
    | some p =>
      obtain ⟨s0, e0⟩ := p
      rcases hnr : normRepr s0 e0 with ⟨s1, e1⟩
      rw [jsDoubleToString, if_neg h0, hsr] at hd ⊢
      dsimp only at hd ⊢
      rw [hnr] at hd ⊢
      dsimp only at hd ⊢
      by_cases hn : digitCount s1 + e1 ≤ 21
      · rw [if_pos hn] at hd ⊢
        have hspec := natDigitsF_spec (s1 + 1) s1 (by omega)
        have hall : (natDigitsF (s1 + 1) s1 ++ List.replicate e1 '0').all Char.isDigit
            = true := by
          rw [List.all_append, hspec.1, replicate_zero_all_digit e1]
          rfl
        have hne2 : natDigitsF (s1 + 1) s1 ++ List.replicate e1 '0' ≠ [] := by
          intro hc
          exact hspec.2 (List.append_eq_nil.mp hc).1
        have hinv : s1 * 10 ^ e1 = s0 * 10 ^ e0 := by
          have h2 := normReprGo_inv s0 s0 e0
          rw [show normReprGo s0 s0 e0 = normRepr s0 e0 from rfl, hnr] at h2
          exact h2
        have hrb : roundDouble (s0 * 10 ^ e0) = some b := by
          rw [searchRepr] at hsr
          exact searchReprGo_sound b (digitCount b) (digitCount b) 1 s0 e0 hsr
        have hval : digitsToNat (natDigitsF (s1 + 1) s1 ++ List.replicate e1 '0')
            = s1 * 10 ^ e1 := by
          rw [digitsToNat_append_zeros, digitsToNat_natDigitsF _ _ (by omega)]
        rw [normalizePrice_digit_some _ hall hne2 b (by rw [hval, hinv]; exact hrb)]
        rw [jsDoubleToString, if_neg h0, hsr]
        dsimp only
        rw [hnr]
        dsimp only
        rw [if_pos hn]
      · rw [if_neg hn] at hd
        exfalso
        rw [stringMk_toList] at hd
        simp only [List.all_append, List.all_cons, Bool.and_eq_true] at hd
        exact absurd hd.2.1 (by decide)

lemma processHref_mode_fallback (env : CrawlEnv) (nz : String) (d : Nat)
    (st : CrawlState) (it : LinkItem) :
    (processHref env nz d st it).searchOnlyMode = st.searchOnlyMode ∧
    (processHref env nz d st it).fallbackSearchUrl = st.fallbackSearchUrl := by
  rw [processHref]
  cases env.normalize it.href with
  | none => exact ⟨rfl, rfl⟩
  | some absolute =>
    dsimp only
    split_ifs <;> exact ⟨rfl, rfl⟩

lemma processHref_queue_searchOnly (env : CrawlEnv) (nz : String) (d : Nat)
    (st : CrawlState) (it : LinkItem) (h : st.searchOnlyMode = true) :
    (processHref env nz d st it).queue = st.queue := by
  rw [processHref]
  cases env.normalize it.href with
  | none => rfl
  | some absolute =>
    dsimp only
    split_ifs with h1 h2 h3 h4 <;> simp_all

lemma foldl_processHref_mode_fallback (env : CrawlEnv) (nz : String) (d : Nat) :
    ∀ (items : List LinkItem) (st : CrawlState),
    ((items.foldl (processHref env nz d) st).searchOnlyMode = st.searchOnlyMode ∧
     (items.foldl (processHref env nz d) st).fallbackSearchUrl = st.fallbackSearchUrl) := by
  intro items
  induction items with
  | nil => intro st; exact ⟨rfl, rfl⟩
  | cons it its ih =>
    intro st
    rw [List.foldl_cons]
    obtain ⟨hm, hf⟩ := ih (processHref env nz d st it)
    obtain ⟨hm2, hf2⟩ := processHref_mode_fallback env nz d st it
    exact ⟨hm.trans hm2, hf.trans hf2⟩

lemma foldl_processHref_queue_searchOnly (env : CrawlEnv) (nz : String) (d : Nat) :
    ∀ (items : List LinkItem) (st : CrawlState), st.searchOnlyMode = true →
    (items.foldl (processHref env nz d) st).queue = st.queue := by
  intro items
  induction items with
  | nil => intro st _; rfl
  | cons it its ih =>
    intro st h
    rw [List.foldl_cons]
    have hm := (processHref_mode_fallback env nz d st it).1
    rw [ih (processHref env nz d st it) (hm.trans h)]
    exact processHref_queue_searchOnly env nz d st it h

/-- C3: the search-form short-circuit of the crawler fires only while
processing a depth-zero page and only while no search URL has been found
yet; once the fallback search URL is set it never changes; when the
short-circuit fires the queue is replaced by exactly the constructed search
URL at depth min of depth plus one and the depth cap, and search-only mode
is entered; search-only mode persists, and in search-only mode (with the
fallback set, an invariant of the mode) processing a page never enqueues
any organic or category link. -/
theorem crawlProcess_search_short_circuit (env : CrawlEnv) (nz : String) (d : Nat)
    (st : CrawlState) :
    ((crawlProcess env nz d st).searchOnlyMode = true → st.searchOnlyMode = false →
      d = 0 ∧ st.fallbackSearchUrl = none) ∧
    ((crawlProcess env nz d st).fallbackSearchUrl ≠ st.fallbackSearchUrl →
      d = 0 ∧ st.fallbackSearchUrl = none) ∧
    (∀ u, st.fallbackSearchUrl = some u →
      (crawlProcess env nz d st).fallbackSearchUrl = some u) ∧
    (∀ page searchUrl, env.world nz = some page → page.searchUrl = some searchUrl →
      st.fallbackSearchUrl = none → d = 0 →
      (crawlProcess env nz d st).queue = [(searchUrl, min (d + 1) MAX_CRAWL_DEPTH)] ∧
      (crawlProcess env nz d st).searchOnlyMode = true ∧
      (crawlProcess env nz d st).fallbackSearchUrl = some searchUrl) ∧
    (st.searchOnlyMode = true → (crawlProcess env nz d st).searchOnlyMode = true) ∧
    (st.searchOnlyMode = true → st.fallbackSearchUrl ≠ none →
      (crawlProcess env nz d st).queue = st.queue) := by
  refine ⟨?_, ?_, ?_, ?_, ?_, ?_⟩
  · intro hafter hbefore
    cases hw : env.world nz with
    | none =>
      simp only [crawlProcess, hw] at hafter
      rw [hafter] at hbefore
      cases hbefore
    | some page =>
      simp only [crawlProcess, hw] at hafter
      by_cases hc : st.fallbackSearchUrl = none ∧ d = 0
      · exact ⟨hc.2, hc.1⟩
      · rw [if_neg hc] at hafter
        have := (foldl_processHref_mode_fallback env nz d page.hrefs st).1
        rw [this] at hafter
        rw [hafter] at hbefore
        cases hbefore
  · intro hafter
    cases hw : env.world nz with
    | none =>
      simp only [crawlProcess, hw] at hafter
      exact absurd rfl hafter
    | some page =>
      simp only [crawlProcess, hw] at hafter
      by_cases hc : st.fallbackSearchUrl = none ∧ d = 0
      · exact ⟨hc.2, hc.1⟩
      · rw [if_neg hc] at hafter
        have := (foldl_processHref_mode_fallback env nz d page.hrefs st).2
        exact absurd this hafter
  · intro u hu
    cases hw : env.world nz with
    | none => simp only [crawlProcess, hw]; exact hu
    | some page =>
      have hc : ¬ (st.fallbackSearchUrl = none ∧ d = 0) := by
        rintro ⟨h1, -⟩
        rw [hu] at h1
        cases h1
      simp only [crawlProcess, hw, if_neg hc]
      exact (foldl_processHref_mode_fallback env nz d page.hrefs st).2.trans hu
  · intro page searchUrl hw hsu hf hd
    simp only [crawlProcess, hw, if_pos (And.intro hf hd), hsu]
    refine ⟨?_, ?_, ?_⟩ <;> trivial
  · intro hmode
    cases hw : env.world nz with
    | none => simp only [crawlProcess, hw]; exact hmode
    | some page =>
      by_cases hc : st.fallbackSearchUrl = none ∧ d = 0
      · simp only [crawlProcess, hw, if_pos hc]
        cases hsu : page.searchUrl with
        | none =>
          exact ((foldl_processHref_mode_fallback env nz d page.hrefs st).1).trans hmode
        | some u => rfl
      · simp only [crawlProcess, hw, if_neg hc]
        exact ((foldl_processHref_mode_fallback env nz d page.hrefs st).1).trans hmode
  · intro hmode hfb
    cases hw : env.world nz with
    | none => simp only [crawlProcess, hw]
    | some page =>
      have hc : ¬ (st.fallbackSearchUrl = none ∧ d = 0) := by
        rintro ⟨h1, -⟩
        exact hfb h1
      simp only [crawlProcess, hw, if_neg hc]
      exact foldl_processHref_queue_searchOnly env nz d page.hrefs st hmode

/-- C3 witness: the short-circuit conjunct evaluated on a concrete world
whose start page exposes a GET search form, with a non-empty pending
queue that gets discarded. -/
theorem crawlProcess_search_short_circuit_witness :
    (crawlProcess
      { normalize := fun s => some s, sameOrigin := fun _ => true,
        world := fun _ => some { hrefs := [{ href := "https://shop.example/a", text := "a" }],
                                 searchUrl := some "https://shop.example/search?q=fan" },
        keyword := "fan" }
      "https://shop.example" 0
      { queue := [("https://shop.example/a", 1), ("https://shop.example/b", 1)],
        productCandidates := [], searchCandidates := [], fallbackSearchUrl := none,
        addedCategoryUrls := 0, searchOnlyMode := false }).queue =
      [("https://shop.example/search?q=fan", min (0 + 1) MAX_CRAWL_DEPTH)] := by
  exact ((crawlProcess_search_short_circuit _ _ _ _).2.2.2.1 _ "https://shop.example/search?q=fan"
    rfl rfl rfl rfl).1

lemma crawlLoop_visited_invariant (env : CrawlEnv) :
    ∀ (visited : List String) (st : CrawlState),
    visited.length ≤ MAX_CRAWL_PAGES → visited.Nodup →
    (crawlLoop env visited st).1.length ≤ MAX_CRAWL_PAGES ∧
    (crawlLoop env visited st).1.Nodup := by
  intro visited st
  induction visited, st using crawlLoop.induct env with
  | case1 v s h5 hq =>
    intro hlen hnd
    rw [crawlLoop]
    simp only [h5, ↓reduceDIte]
    split
    · exact ⟨hlen, hnd⟩
    · rename_i url d rest heq
      rw [hq] at heq
      cases heq
  | case2 v s h5 url d rest hq hnorm ih =>
    intro hlen hnd
    rw [crawlLoop]
    simp only [h5, ↓reduceDIte]
    split
    · exact ⟨hlen, hnd⟩
    · rename_i url2 d2 rest2 heq
      rw [hq] at heq
      injection heq with h1 h2
      injection h1 with hu hd
      subst hu hd h2
      rw [hnorm]
      exact ih hlen hnd
  | case3 v s h5 url d rest hq normalized hnorm hvis ih =>
    intro hlen hnd
    rw [crawlLoop]
    simp only [h5, ↓reduceDIte]
    split
    · exact ⟨hlen, hnd⟩
    · rename_i url2 d2 rest2 heq
      rw [hq] at heq
      injection heq with h1 h2
      injection h1 with hu hd
      subst hu hd h2
      rw [hnorm]
      dsimp only
      rw [if_pos hvis]
      exact ih hlen hnd
  | case4 v s h5 url d rest hq normalized hnorm hvis ih =>
    intro hlen hnd
    rw [crawlLoop]
    simp only [h5, ↓reduceDIte]
    split
    · exact ⟨hlen, hnd⟩
    · rename_i url2 d2 rest2 heq
      rw [hq] at heq
      injection heq with h1 h2
      injection h1 with hu hd
      subst hu hd h2
      rw [hnorm]
      dsimp only
      rw [if_neg hvis]
      apply ih
      · simp only [List.length_append, List.length_cons, List.length_nil]
        omega
      · have hnotmem : normalized ∉ v := by
          intro hmem
          exact hvis (by simpa using hmem)
        simp [List.nodup_append, hnd, hnotmem]
  | case5 v s h5 =>
    intro hlen hnd
    rw [crawlLoop]
    simp only [dif_neg h5]
    exact ⟨hlen, hnd⟩

/-- C1: for every environment (hence every link graph, cyclic or not, of any
size) and every start URL, one invocation of crawlProductUrls visits at most
MAX_CRAWL_PAGES distinct normalized URLs; the visited list is duplicate-free
and bounded by five, and the crawl loop is a total function (its
well-founded recursion is the termination argument: the page cap bounds the
visited set and each skipped entry shrinks the queue). -/
theorem crawlProductUrls_visited_bounded (env : CrawlEnv) (startUrl : String) :
    (crawlProductUrls env startUrl).visited.length ≤ MAX_CRAWL_PAGES ∧
    (crawlProductUrls env startUrl).visited.Nodup := by
  have h := crawlLoop_visited_invariant env []
    { queue := [(startUrl, 0)], productCandidates := [], searchCandidates := [],
      fallbackSearchUrl := none, addedCategoryUrls := 0, searchOnlyMode := false }
    (by simp [MAX_CRAWL_PAGES]) List.nodup_nil
  exact h

lemma effectiveKeywords_mem_ne (sk : List String) (fk x : String)
    (hx : x ∈ effectiveKeywords sk fk) : x ≠ "" := by
  rw [effectiveKeywords] at hx
  split_ifs at hx with h
  · rcases List.mem_singleton.mp hx with rfl
    exact h.2
  · have := mem_dedupGo x _ _ hx
    have := List.of_mem_filter this
    simpa using this

lemma collect_mem_decomp (cu : String) (sk : List String) (fk : String)
    (resolve : String → String → Option String) (pp : List RawProduct)
    (item : SearchFormProductItem)
    (hmem : item ∈ collectSearchFormProducts cu sk fk resolve pp) :
    ∃ k ks, effectiveKeywords sk fk = k :: ks ∧
    ∃ pre ∈ pp,
      item.productName = jsTrim pre.productName ∧
      item.listPrice = jsTrim pre.listPrice ∧
      item.salePrice = jsTrim pre.salePrice ∧
      jsTrim pre.productName ≠ "" ∧
      (jsTrim pre.listPrice ≠ "" ∨ jsTrim pre.salePrice ≠ "") ∧
      item.keywordUsed = (if k = "" then fk else k) ∧
      item.score =
        (if hasPriorityKeywordMatch (item.productName ++ " " ++ item.url ++ " " ++ item.reason)
            (effectiveKeywords sk fk) then 10 else 0) := by
  rw [collectSearchFormProducts] at hmem
  by_cases hk : effectiveKeywords sk fk = []
  · simp [hk] at hmem
  · rw [if_neg hk] at hmem
    obtain ⟨k, ks, hkk⟩ := List.exists_cons_of_ne_nil hk
    refine ⟨k, ks, hkk, ?_⟩
    have h1 : item ∈ sortByKeyDesc (fun i => i.score) _ := (List.take_sublist _ _).subset hmem
    have h2 := (mem_sortByKeyDesc _ item _).mp h1
    obtain ⟨y, hy, hmap⟩ := List.mem_map.mp h2
    obtain ⟨pre, hpre, hf⟩ := List.mem_filterMap.mp hy
    refine ⟨pre, hpre, ?_⟩
    dsimp only at hf
    by_cases hcond : jsTrim pre.productName = "" ∨ (jsTrim pre.listPrice = "" ∧ jsTrim pre.salePrice = "")
    · rw [if_pos hcond] at hf
      cases hf
    · rw [if_neg hcond] at hf
      rw [Option.some_inj] at hf
      subst hf
      subst hmap
      push_neg at hcond
      refine ⟨rfl, rfl, rfl, hcond.1, ?_, ?_, rfl⟩
      · by_cases hlp : jsTrim pre.listPrice = ""
        · exact Or.inr (hcond.2 hlp)
        · exact Or.inl hlp
      · rw [hkk]

/-- C4: every returned search-form product item has a non-empty product name
and at least one non-empty price; each item's score is ten exactly when its
name, URL and reason text contains one of the priority keywords after
case-insensitive whitespace-stripped normalization and zero otherwise; the
returned list is sorted by that score in descending order, and holds at most
ten items. -/
theorem collectSearchFormProducts_post_spec (cu : String) (sk : List String) (fk : String)
    (resolve : String → String → Option String) (pp : List RawProduct) :
    (∀ item ∈ collectSearchFormProducts cu sk fk resolve pp,
      item.productName ≠ "" ∧ (item.listPrice ≠ "" ∨ item.salePrice ≠ "") ∧
      item.score =
        (if hasPriorityKeywordMatch (item.productName ++ " " ++ item.url ++ " " ++ item.reason)
            (effectiveKeywords sk fk) then 10 else 0)) ∧
    (collectSearchFormProducts cu sk fk resolve pp).Pairwise (fun a b => b.score ≤ a.score) ∧
    (collectSearchFormProducts cu sk fk resolve pp).length ≤ 10 := by
  refine ⟨?_, ?_, ?_⟩
  · intro item hmem
    obtain ⟨k, ks, hkk, pre, hpre, hn, hl, hs, hn2, hprices, hkw, hscore⟩ :=
      collect_mem_decomp cu sk fk resolve pp item hmem
    refine ⟨?_, ?_, hscore⟩
    · rw [hn]; exact hn2
    · rw [hl, hs]; exact hprices
  · rw [collectSearchFormProducts]
    by_cases hk : effectiveKeywords sk fk = []
    · simp [hk]
    · rw [if_neg hk]
      exact List.Pairwise.sublist (List.take_sublist _ _) (pairwise_sortByKeyDesc _ _)
  · rw [collectSearchFormProducts]
    by_cases hk : effectiveKeywords sk fk = []
    · simp [hk]
    · rw [if_neg hk]
      exact List.length_take_le _ _

/-- C4 witness: the post-processing specification evaluated on one concrete
oracle row, which is kept with priority score ten. -/
theorem collectSearchFormProducts_post_spec_witness :
    ({ url := "", productName := "Fan One", listPrice := "1,000원", salePrice := "",
       imageSrc := "", score := 10,
       reason := "search_form_text_parse | detail_url_not_resolved",
       keywordUsed := "fan" } : SearchFormProductItem) ∈
      collectSearchFormProducts "https://shop.example/search" ["fan"] "fan prime"
        (fun _ _ => none)
        [{ url := "", productName := "Fan One", listPrice := "1,000원", salePrice := "",
           imageSrc := "", reason := "" }] ∧
    ("Fan One" : String) ≠ "" ∧ (("1,000원" : String) ≠ "" ∨ ("" : String) ≠ "") ∧
    (10 : Nat) =
      (if hasPriorityKeywordMatch
          ("Fan One" ++ " " ++ "" ++ " " ++ "search_form_text_parse | detail_url_not_resolved")
          (effectiveKeywords ["fan"] "fan prime") then 10 else 0) := by
  refine ⟨by decide, ?_⟩
  exact (collectSearchFormProducts_post_spec "https://shop.example/search" ["fan"] "fan prime"
    (fun _ _ => none)
    [{ url := "", productName := "Fan One", listPrice := "1,000원", salePrice := "",
       imageSrc := "", reason := "" }]).1
    { url := "", productName := "Fan One", listPrice := "1,000원", salePrice := "",
      imageSrc := "", score := 10,
      reason := "search_form_text_parse | detail_url_not_resolved", keywordUsed := "fan" }
    (by decide)

/-- C10: every item returned by collectSearchFormProducts carries as
keywordUsed the first element of the effective keyword list, the
deduplicated trimmed search keywords or the trimmed fallback when those are
empty, independent of which probed attempt produced it. -/
theorem collectSearchFormProducts_keywordUsed_uniform (cu : String) (sk : List String)
    (fk : String) (resolve : String → String → Option String) (pp : List RawProduct)
    (item : SearchFormProductItem)
    (hmem : item ∈ collectSearchFormProducts cu sk fk resolve pp) :
    (effectiveKeywords sk fk).head? = some item.keywordUsed := by
  obtain ⟨k, ks, hkk, pre, hpre, hn, hl, hs, hn2, hprices, hkw, hscore⟩ :=
    collect_mem_decomp cu sk fk resolve pp item hmem
  have hkne : k ≠ "" := effectiveKeywords_mem_ne sk fk k (by rw [hkk]; exact List.mem_cons_self _ _)
  rw [hkk]
  rw [hkw, if_neg hkne]
  rfl

/-- C10 witness: the uniform keywordUsed rule evaluated at a concrete call
whose single returned item carries the first effective keyword. -/
theorem collectSearchFormProducts_keywordUsed_uniform_witness :
    (effectiveKeywords ["fan", "prime"] "x").head? =
      some ({ url := "", productName := "Fan One", listPrice := "1,000원", salePrice := "",
              imageSrc := "", score := 10,
              reason := "search_form_text_parse | detail_url_not_resolved",
              keywordUsed := "fan" } : SearchFormProductItem).keywordUsed := by
  exact collectSearchFormProducts_keywordUsed_uniform "https://shop.example/search"
    ["fan", "prime"] "x" (fun _ _ => none)
    [{ url := "", productName := "Fan One", listPrice := "1,000원", salePrice := "",
       imageSrc := "", reason := "" }]
    { url := "", productName := "Fan One", listPrice := "1,000원", salePrice := "",
      imageSrc := "", score := 10,
      reason := "search_form_text_parse | detail_url_not_resolved", keywordUsed := "fan" }
    (by decide)

lemma readSearchInfo_err_reasons (env : ProbeEnv) (page : PageDom) (kw r rid : String)
    (h : readSearchInfo env page kw = .err r rid) :
    r = "input_not_found" ∨ r = "form_not_found" ∨ r = "method_not_get" ∨
      r = "invalid_action_url" := by
  rw [readSearchInfo] at h
  dsimp only at h
  repeat' split at h
  all_goals
    cases h
  all_goals
    try simp

lemma probeOnce_err (env : ProbeEnv) (page : PageDom) (kw r : String)
    (h : (probeOnce env page kw).reason = some r) :
    (r = "input_not_found" ∨ r = "form_not_found" ∨ r = "method_not_get" ∨
      r = "invalid_action_url") ∧
    (probeOnce env page kw).navigated = false ∧
    (probeOnce env page kw).available = false := by
  cases hfirst : readSearchInfo env page kw with
  | ok action name =>
    rw [probeOnce, hfirst] at h
    dsimp only at h
    cases h
  | err reason inputId =>
    by_cases hret : reason = "form_not_found" ∧ jsTrim inputId ≠ ""
    · cases hclick : env.click page (jsTrim inputId) with
      | none =>
        rw [probeOnce, hfirst] at h ⊢
        dsimp only at h ⊢
        rw [if_pos hret, hclick] at h ⊢
        dsimp only at h ⊢
        injection h with h1
        subst h1
        exact ⟨readSearchInfo_err_reasons env page kw _ inputId hfirst, rfl, rfl⟩
      | some page2 =>
        cases hsecond : readSearchInfo env page2 kw with
        | ok action2 name2 =>
          rw [probeOnce, hfirst] at h
          dsimp only at h
          rw [if_pos hret, hclick] at h
          dsimp only at h
          rw [hsecond] at h
          dsimp only at h
          cases h
        | err r2 id2 =>
          rw [probeOnce, hfirst] at h ⊢
          dsimp only at h ⊢
          rw [if_pos hret, hclick] at h ⊢
          dsimp only at h ⊢
          rw [hsecond] at h ⊢
          dsimp only at h ⊢
          injection h with h1
          subst h1
          exact ⟨readSearchInfo_err_reasons env page2 kw _ id2 hsecond, rfl, rfl⟩
    · rw [probeOnce, hfirst] at h ⊢
      dsimp only at h ⊢
      rw [if_neg hret] at h ⊢
      dsimp only at h ⊢
      injection h with h1
      subst h1
      exact ⟨readSearchInfo_err_reasons env page kw _ inputId hfirst, rfl, rfl⟩

lemma probeOnce_no_inputs (env : ProbeEnv) (page : PageDom) (kw : String)
    (h : page.inputs = []) :
    probeOnce env page kw =
      { available := false, reason := some "input_not_found", navigated := false,
        priceHit := false, page := page } := by
  have hread : readSearchInfo env page kw = .err "input_not_found" "" := by
    rw [readSearchInfo, h]
    rfl
  rw [probeOnce, hread]
  dsimp only
  rw [if_neg (by decide)]

lemma probeKeywords_no_inputs (env : ProbeEnv) (page : PageDom) (h : page.inputs = []) :
    ∀ (kws : List String) (lastReason : Option String) (nav : Bool),
    probeKeywords env page kws lastReason nav =
      (false, page, (if kws = [] then lastReason else some "input_not_found"), nav) := by
  intro kws
  induction kws with
  | nil => intro lastReason nav; rfl
  | cons kw rest ih =>
    intro lastReason nav
    rw [probeKeywords, probeOnce_no_inputs env page kw h]
    dsimp only
    rw [ih (some "input_not_found") (nav || false)]
    cases rest <;> simp

/-- C8: a probe on a homepage with no input elements fails with the typed
reason input_not_found and performs no navigation at all across both keyword
rounds; and whenever one probe attempt reports a reason it is one of the
four typed failure reasons and that attempt neither navigated nor succeeded. -/
theorem searchFormProbe_failure_spec :
    (∀ (env : ProbeEnv) (home : PageDom) (kws : List String),
      home.inputs = [] →
      dedupFirst ((kws.map jsTrim).filter (fun k => k ≠ "")) ≠ [] →
      checkSearchFormAvailability env home kws =
        { available := false, reason := some "input_not_found", navigated := false }) ∧
    (∀ (env : ProbeEnv) (page : PageDom) (kw r : String),
      (probeOnce env page kw).reason = some r →
      (r = "input_not_found" ∨ r = "form_not_found" ∨ r = "method_not_get" ∨
        r = "invalid_action_url") ∧
      (probeOnce env page kw).navigated = false ∧
      (probeOnce env page kw).available = false) := by
  constructor
  · intro env home kws hinp hk
    rw [checkSearchFormAvailability]
    rw [if_neg hk]
    rw [probeKeywords_no_inputs env home hinp _ none false]
    rw [if_neg hk]
    dsimp only
    rw [probeKeywords_no_inputs env home hinp _ (some "input_not_found") false]
    rw [if_neg hk]
    dsimp only
    rfl
  · intro env page kw r h
    exact probeOnce_err env page kw r h

/-- C8 witness: the homepage-without-inputs case evaluated on a concrete
probe environment. -/
theorem searchFormProbe_failure_spec_witness :
    checkSearchFormAvailability
      { mkUrl := fun _ _ _ _ => none,
        navigate := fun _ => { pageUrl := "r", inputs := [], bodyText := "" },
        click := fun _ _ => none, productName := "Fan" }
      { pageUrl := "https://shop.example", inputs := [], bodyText := "SHOP" }
      ["fan"] =
      { available := false, reason := some "input_not_found", navigated := false } := by
  exact searchFormProbe_failure_spec.1
    { mkUrl := fun _ _ _ _ => none,
      navigate := fun _ => { pageUrl := "r", inputs := [], bodyText := "" },
      click := fun _ _ => none, productName := "Fan" }
    { pageUrl := "https://shop.example", inputs := [], bodyText := "SHOP" }
    ["fan"] rfl (by decide)

/-- C7 counterexample: normalizing the plain numeral
1000000000000000000000 yields the exponential string 1e+21 (JavaScript
String on a value of at least ten to the twenty-first power), and
normalizing that output yields 21, so normalization is not idempotent. -/
theorem normalizePrice_exponential_cex :
    normalizePrice "1000000000000000000000" = "1e+21" ∧
    normalizePrice (normalizePrice "1000000000000000000000") = "21" ∧
    normalizePrice (normalizePrice "1000000000000000000000") ≠
      normalizePrice "1000000000000000000000" := by
  refine ⟨by decide, by decide, by decide⟩

/-- C7 (amended): normalizePrice is idempotent on every input whose
normalized form is a plain decimal numeral (all digits), which is exactly
the case when the selected value stays below the exponential-notation
threshold of JavaScript String; and the grouped won-suffix and won-symbol
writings of 12,000 normalize identically. -/
theorem normalizePrice_idempotent_on_plain :
    (∀ v : String, (normalizePrice v).toList.all Char.isDigit = true →
      normalizePrice (normalizePrice v) = normalizePrice v) ∧
    normalizePrice "12,000원" = normalizePrice "₩12,000" := by
  constructor
  · intro v hdig
    rcases normalizePrice_cases v with h | ⟨b, hb, h⟩
    · rw [h]
      rfl
    · rw [h] at hdig ⊢
      exact jsDoubleToString_renorm b hb hdig
  · decide

/-- C7 witness: idempotency evaluated on the concrete grouped price
12,000원, whose normal form 12000 is a plain numeral. -/
theorem normalizePrice_idempotent_on_plain_witness :
    (normalizePrice "12,000원").toList.all Char.isDigit = true ∧
    normalizePrice (normalizePrice "12,000원") = normalizePrice "12,000원" :=
  ⟨by decide, normalizePrice_idempotent_on_plain.1 "12,000원" (by decide)⟩
